import Mathlib

/-!
Verification development for the `socks` JSON-IPC library.

The C++ sources are shallowly embedded: `nlohmann::json` values become the
mutual inductive `Json`/`JsonArr`/`JsonObj` below (objects are `std::map`s,
so they are key-sorted and duplicate-free; that invariant is captured by the
`Canonical` predicates), the schema validator `assert_parameters` becomes a
Lean function over an embedded `ParamSchema`, the thread pool's mutex-guarded
worker loop becomes a small-step transition system whose atomic steps are the
critical sections of `threadpool.cpp`, and the transports' identity handling
becomes explicit `Except` computations.

IEEE-754 doubles cannot be embedded; `number_float` values are abstracted by
the decimal literal components the parser saw (sign, integer part, fraction
digits, exponent).  Every theorem that touches the wire codec therefore
restricts itself to float-free values via `NoFloat`.
-/

namespace Socks

/-- Embedding of `nlohmann::json::value_t` (see `value_t_to_string` in
`schema.cpp` for the full enumeration used by the repository). -/
inductive JType where
  | null
  | object
  | array
  | string
  | boolean
  | number_integer
  | number_unsigned
  | number_float
  | binary
  | discarded
deriving DecidableEq, Repr

/-- Decimal-literal abstraction of a C++ `double`: sign, integer part,
fraction digits and decimal exponent as they appear in the source text.
The binary IEEE-754 value is not modelled. -/
structure FloatLit where
  neg : Bool
  ipart : Nat
  frac : List Nat
  ex : Int
deriving DecidableEq, Repr

mutual
/-- Embedding of `nlohmann::json` values (without `binary`/`discarded`,
which the repository never constructs). -/
inductive Json where
  | null : Json
  | boolean : Bool → Json
  | intNum : Int → Json
  | uintNum : Nat → Json
  | floatNum : FloatLit → Json
  | str : String → Json
  | arr : JsonArr → Json
  | obj : JsonObj → Json
deriving DecidableEq, Repr

/-- `nlohmann::json::array_t`, a sequence of values. -/
inductive JsonArr where
  | nil : JsonArr
  | cons : Json → JsonArr → JsonArr
deriving DecidableEq, Repr

/-- `nlohmann::json::object_t`, i.e. `std::map<std::string, json>`: an
association sequence; the map invariant (strictly key-sorted) is stated
separately as `JsonObj.Sorted`. -/
inductive JsonObj where
  | nil : JsonObj
  | cons : String → Json → JsonObj → JsonObj
deriving DecidableEq, Repr
end

/-- `json::type()`. -/
def Json.type : Json → JType
  | .null => .null
  | .boolean _ => .boolean
  | .intNum _ => .number_integer
  | .uintNum _ => .number_unsigned
  | .floatNum _ => .number_float
  | .str _ => .string
  | .arr _ => .array
  | .obj _ => .object

/-- `json::is_object()`. -/
def Json.isObject : Json → Bool
  | .obj _ => true
  | _ => false

/-- `object_t::find` / `object_t::at`: first (and, under the map invariant,
only) binding of a key. -/
def JsonObj.find? : JsonObj → String → Option Json
  | .nil, _ => none
  | .cons k v tl, key => if k = key then some v else tl.find? key

/-- `json::contains(key)` on an object. -/
def JsonObj.containsKey (o : JsonObj) (key : String) : Bool :=
  (o.find? key).isSome

/-- `std::map::operator[] =` on `object_t`: insert keeping keys sorted, or
replace the value bound to an existing key. -/
def JsonObj.setKey : JsonObj → String → Json → JsonObj
  | .nil, key, v => .cons key v .nil
  | .cons k w tl, key, v =>
    if key < k then .cons key v (.cons k w tl)
    else if key = k then .cons k v tl
    else .cons k w (tl.setKey key v)

/-- `json::type_name()`, only used inside `nlohmann` error texts (all three
numeric kinds collapse to "number"). -/
def Json.typeName : Json → String
  | .null => "null"
  | .boolean _ => "boolean"
  | .intNum _ => "number"
  | .uintNum _ => "number"
  | .floatNum _ => "number"
  | .str _ => "string"
  | .arr _ => "array"
  | .obj _ => "object"

/-- `json::operator[] =` as used throughout the repository (`res["_success"]
= true` etc.): on an object insert/replace the key; on `null` first become
an empty object.  On any other type `nlohmann` throws `type_error.305`. -/
def Json.setField : Json → String → Json → Except String Json
  | .obj o, key, v => .ok (.obj (o.setKey key v))
  | .null, key, v => .ok (.obj (JsonObj.nil.setKey key v))
  | j, _, _ => .error ("cannot use operator[] with a string argument with " ++
      j.typeName)

/-- `json::value(key, default)` for a `std::string` default: on an object,
return the string bound to `key`, the default if the key is absent, and a
`type_error.302` if the bound value is not a string; on a non-object throw
`type_error.306`. -/
def Json.valueStr : Json → String → String → Except String String
  | .obj o, key, dflt =>
    match o.find? key with
    | none => .ok dflt
    | some (.str s) => .ok s
    | some v => .error ("type must be string, but is " ++ v.typeName)
  | j, _, _ => .error ("cannot use value() with " ++ j.typeName)

/-- `json::value(key, default)` for a `bool` default, same shape as
`Json.valueStr`. -/
def Json.valueBool : Json → String → Bool → Except String Bool
  | .obj o, key, dflt =>
    match o.find? key with
    | none => .ok dflt
    | some (.boolean b) => .ok b
    | some v => .error ("type must be boolean, but is " ++ v.typeName)
  | j, _, _ => .error ("cannot use value() with " ++ j.typeName)

/-- `json::at(key)` merged with the `contains` guard that always precedes it
in `schema.cpp`: `none` exactly when `contains` is false. -/
def Json.atKey : Json → String → Option Json
  | .obj o, key => o.find? key
  | _, _ => none

mutual
/-- Embedding of `ParamSchema` (`schema.hpp`): a `std::variant` of a single
`value_t`, a vector of acceptable `value_t`s, or a shared pointer to a
nested map from field name to `ParamSchema`. -/
inductive ParamSchema where
  | ptype : JType → ParamSchema
  | ptypes : List JType → ParamSchema
  | pnested : SchemaMap → ParamSchema
deriving DecidableEq, Repr

/-- The nested `std::unordered_map<std::string, ParamSchema>`, embedded as an
association sequence (the C++ iteration order is unspecified; the embedding
fixes the sequence order, which no claim depends on). -/
inductive SchemaMap where
  | nil : SchemaMap
  | cons : String → ParamSchema → SchemaMap → SchemaMap
deriving DecidableEq, Repr
end

/-- `value_t_to_string` from `schema.cpp`. -/
def value_t_to_string : JType → String
  | .null => "null"
  | .object => "object"
  | .array => "array"
  | .string => "string"
  | .boolean => "boolean"
  | .number_integer => "number_integer"
  | .number_unsigned => "number_unsigned"
  | .number_float => "number_float"
  | .binary => "binary"
  | .discarded => "discarded"

/-- The `expected_list` string built in the multi-type branch of
`assert_parameters_impl`: the names joined by ", ". -/
def expectedList : List JType → String
  | [] => ""
  | [t] => value_t_to_string t
  | t :: rest => value_t_to_string t ++ ", " ++ expectedList rest

mutual
/-- The body of the `for` loop of `assert_parameters_impl` for one schema
entry whose key was found, checking `json_val` against `schema_val`. -/
def checkSchemaVal (json_val : Json) (schema_val : ParamSchema)
    (full_path : String) : Except String Unit :=
  match schema_val with
  | .ptype expected_type =>
    if json_val.type = expected_type then .ok ()
    else .error ("Wrong type for key '" ++ full_path ++ "' (expected " ++
      value_t_to_string expected_type ++ ", got " ++
      value_t_to_string json_val.type ++ ")")
  | .ptypes expected_types =>
    if expected_types.any (fun t => json_val.type = t) then .ok ()
    else .error ("Wrong type for key '" ++ full_path ++
      "' (expected one of [" ++ expectedList expected_types ++ "], got " ++
      value_t_to_string json_val.type ++ ")")
  | .pnested nested =>
    if json_val.isObject then assert_parameters_impl json_val nested full_path
    else .error ("Expected object at key: " ++ full_path)

/-- `assert_parameters_impl` from `schema.cpp`: walk the schema entries,
require each key to exist, check its value, fail fast on the first
violation. -/
def assert_parameters_impl (obj : Json) (schema : SchemaMap)
    (path : String) : Except String Unit :=
  match schema with
  | .nil => .ok ()
  | .cons key schema_val tl =>
    let full_path := if path = "" then key else path ++ "." ++ key
    match obj.atKey key with
    | none => .error ("Missing key: " ++ full_path)
    | some json_val => do
      checkSchemaVal json_val schema_val full_path
      assert_parameters_impl obj tl path
end

/-- `assert_parameters` from `schema.cpp`: top-level object check, then the
recursive walk with an empty path. -/
def assert_parameters (obj : Json) (schema : SchemaMap) :
    Except String Unit :=
  if obj.isObject then assert_parameters_impl obj schema ""
  else .error "Top-level JSON must be an object."

/-! ### The wire codec: `json::dump` -/

/-- The character for one decimal digit value. -/
def digitChar (d : Nat) : Char := Char.ofNat (48 + d)

/-- Decimal digits of `n`, least significant first; `fuel ≥ n` suffices
(structural fuel keeps the definition kernel-reducible). -/
def natDigitsRev : Nat → Nat → List Char
  | 0, _ => []
  | fuel + 1, n =>
    if n < 10 then [digitChar n]
    else digitChar (n % 10) :: natDigitsRev fuel (n / 10)

/-- Decimal text of a `Nat`, as `std::to_string` / `dump` produce it. -/
def printNat (n : Nat) : List Char := (natDigitsRev (n + 1) n).reverse

/-- Decimal text of an `Int` (minus sign for negatives). -/
def printInt (i : Int) : List Char :=
  if i < 0 then '-' :: printNat i.natAbs else printNat i.toNat

/-- Lower-case hexadecimal digit character, as `dump`'s `\u%04x` emits. -/
def hexChar (d : Nat) : Char :=
  if d < 10 then Char.ofNat (48 + d) else Char.ofNat (87 + d)

/-- One character of `dump_escaped` (with `ensure_ascii = false`, the
repository's configuration): the two-character escapes, `\u00xx` for the
remaining control characters, everything else copied through. -/
def escapeChar (c : Char) : List Char :=
  if c = '"' then ['\\', '"']
  else if c = '\\' then ['\\', '\\']
  else if c = '\x08' then ['\\', 'b']
  else if c = '\x0c' then ['\\', 'f']
  else if c = '\n' then ['\\', 'n']
  else if c = '\r' then ['\\', 'r']
  else if c = '\t' then ['\\', 't']
  else if c.toNat < 32 then
    ['\\', 'u', '0', '0', hexChar (c.toNat / 16), hexChar (c.toNat % 16)]
  else [c]

/-- `dump_escaped` over a whole string body. -/
def escapeString : List Char → List Char
  | [] => []
  | c :: cs => escapeChar c ++ escapeString cs

/-- Best-effort text of the decimal-literal float abstraction.  `nlohmann`
prints the shortest round-tripping decimal of the IEEE double, which is not
embeddable; no wire-level theorem ranges over floats (`NoFloat`). -/
def printFloatLit (f : FloatLit) : List Char :=
  (if f.neg then ['-'] else []) ++ printNat f.ipart ++
    '.' :: f.frac.map digitChar ++
    (if f.ex = 0 then [] else 'e' :: printInt f.ex)

mutual
/-- `json::dump()` (no indentation): the serialized character sequence. -/
def Json.dumpChars : Json → List Char
  | .null => ['n', 'u', 'l', 'l']
  | .boolean true => ['t', 'r', 'u', 'e']
  | .boolean false => ['f', 'a', 'l', 's', 'e']
  | .intNum i => printInt i
  | .uintNum n => printNat n
  | .floatNum f => printFloatLit f
  | .str s => '"' :: (escapeString s.data ++ ['"'])
  | .arr a => '[' :: (a.dumpItems ++ [']'])
  | .obj o => '\x7b' :: (o.dumpEntries ++ ['\x7d'])

/-- Array items, comma-separated. -/
def JsonArr.dumpItems : JsonArr → List Char
  | .nil => []
  | .cons v .nil => v.dumpChars
  | .cons v (.cons w tl) =>
    v.dumpChars ++ ',' :: (JsonArr.cons w tl).dumpItems

/-- Object entries, comma-separated, each `"key":value`; iteration is in
map order, i.e. ascending keys for a canonical object. -/
def JsonObj.dumpEntries : JsonObj → List Char
  | .nil => []
  | .cons k v .nil =>
    '"' :: (escapeString k.data ++ '"' :: ':' :: v.dumpChars)
  | .cons k v (.cons k' w tl) =>
    ('"' :: (escapeString k.data ++ '"' :: ':' :: v.dumpChars)) ++
      ',' :: (JsonObj.cons k' w tl).dumpEntries
end

/-- `json::dump()` as a `std::string`. -/
def Json.dump (j : Json) : String := ⟨j.dumpChars⟩

/-! ### The wire codec: `json::parse`

Embedding of the `nlohmann` recursive-descent parser on the grammar the
repository exchanges.  The fuel argument is structural bookkeeping only:
every recursive call is preceded by at least one consumed character, so
`input.length + 1` fuel never runs out (and the round-trip theorems prove
the fuel sufficient on every input they touch). -/

/-- JSON insignificant whitespace, as `nlohmann`'s lexer skips it. -/
def isWsCh (c : Char) : Bool :=
  c = ' ' || c = '\t' || c = '\n' || c = '\r'

/-- Skip insignificant whitespace. -/
def skipWs : List Char → List Char
  | [] => []
  | c :: cs => if isWsCh c then skipWs cs else c :: cs

/-- ASCII decimal digit test. -/
def isDigitCh (c : Char) : Bool := 48 ≤ c.toNat && c.toNat ≤ 57

/-- Longest digit run: the digit values, and the rest of the input. -/
def takeDigits : List Char → List Nat × List Char
  | [] => ([], [])
  | c :: cs =>
    if isDigitCh c then
      let (ds, rest) := takeDigits cs
      ((c.toNat - 48) :: ds, rest)
    else ([], c :: cs)

/-- Value of a most-significant-first digit list. -/
def digitsVal (ds : List Nat) : Nat := ds.foldl (fun a d => a * 10 + d) 0

/-- Hexadecimal digit value, both cases accepted (as in the lexer). -/
def hexVal? (c : Char) : Option Nat :=
  if 48 ≤ c.toNat && c.toNat ≤ 57 then some (c.toNat - 48)
  else if 97 ≤ c.toNat && c.toNat ≤ 102 then some (c.toNat - 87)
  else if 65 ≤ c.toNat && c.toNat ≤ 70 then some (c.toNat - 55)
  else none

/-- The value of four hex digit characters (most significant first), if
all four are hex digits. -/
def hexQuad (h1 h2 h3 h4 : Char) : Option Nat :=
  match hexVal? h1, hexVal? h2, hexVal? h3, hexVal? h4 with
  | some a, some b, some c, some d =>
    some (((a * 16 + b) * 16 + c) * 16 + d)
  | _, _, _, _ => none

mutual
/-- String body after the opening quote: unescape until the closing quote,
returning the content and the input after the quote.  Unescaped control
characters are rejected, `\uXXXX` decodes code points with surrogate
pairing, exactly as the strict lexer does. -/
def parseStringBody : List Char → Except String (List Char × List Char)
  | [] => .error "unexpected end of input in string"
  | c :: cs =>
    if c = '"' then .ok ([], cs)
    else if c = '\\' then parseEscape cs
    else if c.toNat < 32 then .error "control character in string"
    else do let (s, r) ← parseStringBody cs; .ok (c :: s, r)

/-- One escape sequence after the backslash. -/
def parseEscape : List Char → Except String (List Char × List Char)
  | [] => .error "unexpected end of input in escape"
  | e :: cs =>
    if e = '"' then do let (s, r) ← parseStringBody cs; .ok ('"' :: s, r)
    else if e = '\\' then do
      let (s, r) ← parseStringBody cs; .ok ('\\' :: s, r)
    else if e = '/' then do let (s, r) ← parseStringBody cs; .ok ('/' :: s, r)
    else if e = 'b' then do
      let (s, r) ← parseStringBody cs; .ok ('\x08' :: s, r)
    else if e = 'f' then do
      let (s, r) ← parseStringBody cs; .ok ('\x0c' :: s, r)
    else if e = 'n' then do
      let (s, r) ← parseStringBody cs; .ok ('\n' :: s, r)
    else if e = 'r' then do
      let (s, r) ← parseStringBody cs; .ok ('\r' :: s, r)
    else if e = 't' then do
      let (s, r) ← parseStringBody cs; .ok ('\t' :: s, r)
    else if e = 'u' then parseUnicodeEscape cs
    else .error "invalid escape"

/-- The four hex digits of `\uXXXX`: the code unit they denote. -/
def parseUnicodeEscape : List Char → Except String (List Char × List Char)
  | h1 :: h2 :: h3 :: h4 :: cs =>
    match hexQuad h1 h2 h3 h4 with
    | some n =>
      if 55296 ≤ n && n ≤ 56319 then parseLowSurrogate n cs
      else if 56320 ≤ n && n ≤ 57343 then .error "unexpected low surrogate"
      else do let (s, r) ← parseStringBody cs; .ok (Char.ofNat n :: s, r)
    | none => .error "invalid \\u escape"
  | _ => .error "unexpected end of input in \\u escape"

/-- After a high surrogate, the mandatory `\uXXXX` low surrogate; the pair
combines into one code point. -/
def parseLowSurrogate :
    Nat → List Char → Except String (List Char × List Char)
  | n, '\\' :: 'u' :: g1 :: g2 :: g3 :: g4 :: cs' =>
    match hexQuad g1 g2 g3 g4 with
    | some m =>
      if 56320 ≤ m && m ≤ 57343 then do
        let (s, r) ← parseStringBody cs'
        .ok (Char.ofNat (65536 + (n - 55296) * 1024 + (m - 56320)) :: s, r)
      else .error "invalid low surrogate"
    | none => .error "invalid \\u escape"
  | _, _ => .error "missing low surrogate"
end

/-- Optional exponent part of a number token: `(e|E) sign? digits`; returns
`none` when the input does not start with an exponent marker. -/
def parseExponent (input : List Char) :
    Except String (Option (Int × List Char)) :=
  match input with
  | 'e' :: cs => parseSignedDigits cs
  | 'E' :: cs => parseSignedDigits cs
  | _ => .ok none
where
  parseSignedDigits (cs : List Char) :
      Except String (Option (Int × List Char)) :=
    let (sgn, cs') : Bool × List Char :=
      match cs with
      | '+' :: r => (false, r)
      | '-' :: r => (true, r)
      | r => (false, r)
    match takeDigits cs' with
    | ([], _) => .error "invalid number: bad exponent"
    | (ds, rest) =>
      .ok (some (if sgn then -(digitsVal ds : Int) else (digitsVal ds : Int),
        rest))

/-- Is the head of the input a decimal digit? -/
def headIsDigit : List Char → Bool
  | [] => false
  | c :: _ => isDigitCh c

/-- Fraction/exponent continuation of a number token after the integer
part. -/
def parseAfterInt (neg : Bool) (ip : Nat) (rest : List Char) :
    Except String (Json × List Char) :=
  match rest with
  | '.' :: cs =>
    (match takeDigits cs with
    | ([], _) => .error "invalid number: bad fraction"
    | (fds, rest') => do
      match ← parseExponent rest' with
      | some (ex, rest'') =>
        .ok (.floatNum ⟨neg, ip, fds, ex⟩, rest'')
      | none => .ok (.floatNum ⟨neg, ip, fds, 0⟩, rest'))
  | _ => do
    match ← parseExponent rest with
    | some (ex, rest') => .ok (.floatNum ⟨neg, ip, [], ex⟩, rest')
    | none =>
      .ok (if neg then .intNum (-(ip : Int)) else .uintNum ip, rest)

/-- Number token after an optional leading minus (already consumed, recorded
in `neg`): integer part without leading zeros, optional fraction, optional
exponent.  A plain integer becomes `number_unsigned`, a negated one
`number_integer`, anything with a fraction or exponent `number_float` (the
lexer's `value_unsigned` / `value_integer` / `value_float` outcomes). -/
def parseNumber (neg : Bool) (input : List Char) :
    Except String (Json × List Char) :=
  match input with
  | [] => .error "invalid number: no digits"
  | c :: cs =>
    if c = '0' then
      if headIsDigit cs then .error "invalid number: leading zeros"
      else parseAfterInt neg 0 cs
    else if isDigitCh c then
      match takeDigits (c :: cs) with
      | (ds, rest) => parseAfterInt neg (digitsVal ds) rest
    else .error "invalid number: no digits"

/-- Building the object map from textually ordered entries: repeated
`operator[] =` as the SAX parser performs it (a later duplicate key
overwrites an earlier one). -/
def JsonObj.ofEntries (entries : List (String × Json)) : JsonObj :=
  entries.foldl (fun m e => m.setKey e.1 e.2) .nil

/-- Does the head of the input close an empty array / empty object? -/
def headIs (ch : Char) : List Char → Bool
  | [] => false
  | c :: _ => c = ch

mutual
/-- One JSON value: skip whitespace, then dispatch on the first
significant character (the lexer's token switch). -/
def parseValueF : Nat → List Char → Except String (Json × List Char)
  | 0, _ => .error "input nested too deeply"
  | fuel + 1, input =>
    match skipWs input with
    | [] => .error "unexpected end of input"
    | c :: cs =>
      if isDigitCh c then parseNumber false (c :: cs)
      else if c = '-' then parseNumber true cs
      else if c = '"' then do
        let (s, r) ← parseStringBody cs
        .ok (.str ⟨s⟩, r)
      else if c = '[' then
        if headIs ']' (skipWs cs) then .ok (.arr .nil, (skipWs cs).tail)
        else do
          let (a, r) ← parseArrItemsF fuel cs
          .ok (.arr a, r)
      else if c = '\x7b' then
        if headIs '\x7d' (skipWs cs) then .ok (.obj .nil, (skipWs cs).tail)
        else do
          let (entries, r) ← parseObjEntriesF fuel cs
          .ok (.obj (JsonObj.ofEntries entries), r)
      else if c = 'n' then
        match cs with
        | 'u' :: 'l' :: 'l' :: r => .ok (.null, r)
        | _ => .error "invalid literal"
      else if c = 't' then
        match cs with
        | 'r' :: 'u' :: 'e' :: r => .ok (.boolean true, r)
        | _ => .error "invalid literal"
      else if c = 'f' then
        match cs with
        | 'a' :: 'l' :: 's' :: 'e' :: r => .ok (.boolean false, r)
        | _ => .error "invalid literal"
      else .error "unexpected character"

/-- Array items after `[`, at least one: value, then `,` items or `]`. -/
def parseArrItemsF : Nat → List Char → Except String (JsonArr × List Char)
  | 0, _ => .error "input nested too deeply"
  | fuel + 1, input => do
    let (v, rest) ← parseValueF fuel input
    match skipWs rest with
    | ',' :: r2 => do
      let (tl, r3) ← parseArrItemsF fuel r2
      .ok (.cons v tl, r3)
    | ']' :: r2 => .ok (.cons v .nil, r2)
    | _ => .error "expected , or ] after array element"

/-- Object entries after the opening brace, at least one:
`"key" : value`, then `,` entries or the closing brace; entries are
returned in textual order. -/
def parseObjEntriesF : Nat → List Char →
    Except String (List (String × Json) × List Char)
  | 0, _ => .error "input nested too deeply"
  | fuel + 1, input =>
    match skipWs input with
    | '"' :: cs => do
      let (k, r1) ← parseStringBody cs
      match skipWs r1 with
      | ':' :: r2 => do
        let (v, r3) ← parseValueF fuel r2
        (match skipWs r3 with
        | ',' :: r4 => do
          let (es, r5) ← parseObjEntriesF fuel r4
          .ok ((⟨k⟩, v) :: es, r5)
        | '\x7d' :: r4 => .ok ([(⟨k⟩, v)], r4)
        | _ => .error "expected , or closing brace after object element")
      | _ => .error "expected : after object key"
    | _ => .error "expected object key"
end

/-- `json::parse` on a whole message: one value, then nothing but
whitespace (the parser's end-of-input check). -/
def Json.parse (s : String) : Except String Json := do
  let (v, rest) ← parseValueF (s.data.length + 1) s.data
  match skipWs rest with
  | [] => .ok v
  | _ => .error "unexpected character after value"

/-! ### Envelopes and the server (`server.cpp`) -/

/-- `okay(result)` from `server.cpp`: copy the result and set
`_success = true` (an exception only if `result` is neither an object nor
`null`, as `operator[]` throws then). -/
def okay (result : Json) : Except String Json :=
  result.setField "_success" (.boolean true)

/-- `error(result, message)` from `server.cpp`: copy the result, set
`_success = false` and `_msg = message`. -/
def error (result : Json) (message : String) : Except String Json := do
  let res ← result.setField "_success" (.boolean false)
  res.setField "_msg" (.str message)

/-- The value `error({}, message)` computes to (the `{}` argument is the
`null` json; `operator[]` turns it into an object, and the `std::map`
keeps `_msg` before `_success`).  `error_null_eq` below proves this is
exactly `error .null message`. -/
def errEnvelope (message : String) : Json :=
  .obj (.cons "_msg" (.str message) (.cons "_success" (.boolean false) .nil))

/-- A handler (`Handler` in `socks.hpp`): a function from the request json
to a response json that may also throw. -/
def HandlerFn := Json → Except String Json

/-- `handlers_.find(command)`: lookup in the registered-handler map. -/
def findHandler : List (String × HandlerFn) → String → Option HandlerFn
  | [], _ => none
  | (name, h) :: tl, command =>
    if name = command then some h else findHandler tl command

/-- The per-message task built in `Server::serve` (the lambda at
`server.cpp:64-101`), given the raw received bytes: parse, read `_cmd`
(with the `"<no _cmd>"` default), dispatch to the found handler or build
the unknown-command failure, then read `_success` for logging; any
exception inside the `try` block is caught and replaced by the
`Invalid JSON or internal error:` failure envelope.  The result is the
response that is sent back, paired with the list of commands whose handler
was actually invoked (the log of `it->second(request)` calls). -/
def serveTask (handlers : List (String × HandlerFn)) (data : String) :
    Json × List String :=
  match Json.parse data with
  | .error e => (errEnvelope ("Invalid JSON or internal error: " ++ e), [])
  | .ok request =>
    match request.valueStr "_cmd" "<no _cmd>" with
    | .error e => (errEnvelope ("Invalid JSON or internal error: " ++ e), [])
    | .ok command =>
      let dispatched : Except String Json × List String :=
        match findHandler handlers command with
        | some h => (h request, [command])
        | none => (error .null ("Unknown command: " ++ command), [])
      match dispatched with
      | (.error e, invoked) =>
        (errEnvelope ("Invalid JSON or internal error: " ++ e), invoked)
      | (.ok response, invoked) =>
        match response.valueBool "_success" false with
        | .error e =>
          (errEnvelope ("Invalid JSON or internal error: " ++ e), invoked)
        | .ok _ => (response, invoked)

/-! ### The client (`client.cpp`) -/

/-- The first two statements of `Client::send_request`
(`client.cpp:20-21`): `json full_request = request;` makes a copy and
`full_request["_cmd"] = endpoint;` mutates that copy.  The embedding
returns the mutated copy together with the caller's object as it stands
after those lines. -/
def send_request_build (endpoint : String) (request : Json) :
    Except String (Json × Json) := do
  let full_request := request
  let full_request ← full_request.setField "_cmd" (.str endpoint)
  .ok (full_request, request)

/-- The reply-processing half of `Client::send_request`
(`client.cpp:26-33`): parse the reply, throw
`Request failed: <msg>` unless `_success` is true, otherwise return the
response envelope. -/
def clientHandleReply (response_str : String) : Except String Json := do
  let response ← Json.parse response_str
  let success ← response.valueBool "_success" false
  if success then .ok response
  else do
    let msg ← response.valueStr "_msg" "Unknown server error."
    .error ("Request failed: " ++ msg)

/-- `Client::send_request` with the transport's synchronous round trip
abstracted as a function from request bytes to reply bytes (it may
throw). -/
def send_request (roundTrip : String → Except String String)
    (endpoint : String) (request : Json) : Except String Json := do
  let (full_request, _) ← send_request_build endpoint request
  let response_str ← roundTrip full_request.dump
  clientHandleReply response_str

/-- The body of the detached thread of `Client::send_request_bg`
(`client.cpp:45-52`): run `send_request` (its outcome is the `outcome`
argument), hand the response to the callback; any exception — including
one thrown by the callback itself — lands in the `catch`, which calls the
callback once more with a synthesized failure envelope, and an exception
out of that call escapes the thread.  Returns the list of callback
invocations in order, and the escaped exception if any. -/
def send_request_bg_body (outcome : Except String Json)
    (callback : Json → Except String Unit) : List Json × Option String :=
  match outcome with
  | .ok response =>
    (match callback response with
    | .ok _ => ([response], none)
    | .error e =>
      match callback (errEnvelope e) with
      | .ok _ => ([response, errEnvelope e], none)
      | .error e2 => ([response, errEnvelope e], some e2))
  | .error e =>
    match callback (errEnvelope e) with
    | .ok _ => ([errEnvelope e], none)
    | .error e2 => ([errEnvelope e], some e2)

/-! ### The thread pool (`threadpool.cpp`)

The pool is embedded as a transition system.  Each transition is one
critical section (or one task execution) of the worker loop
`ThreadPool::worker`; tasks are identified by numbers. -/

/-- What one worker thread is doing. -/
inductive WorkerStatus where
  | waiting
  | running : Nat → WorkerStatus
  | exited
deriving DecidableEq, Repr

/-- The shared state of `ThreadPool`: the queue, the two shutdown flags,
the workers and the log of tasks whose wrapped body actually ran. -/
structure PoolState where
  tasks : List Nat
  stop : Bool
  terminate_now : Bool
  workers : List WorkerStatus
  executed : List Nat
deriving DecidableEq, Repr

/-- The wake predicate of `condition_.wait` in `ThreadPool::worker`
(`threadpool.cpp:24-26`): `terminate_now_ || (!tasks_.empty() && !stop_)`.
A waiting worker leaves the wait only when this holds. -/
def workerWakePred (s : PoolState) : Bool :=
  s.terminate_now || (!s.tasks.isEmpty && !s.stop)

/-- The rest of the worker's critical section once the wake predicate has
released it (`threadpool.cpp:28-45`): exit on `terminate_now_`, exit on
`stop_` with an empty queue, otherwise pop the front task and run it. -/
def wakeResult (s : PoolState) (i : Nat) : PoolState :=
  if s.terminate_now then { s with workers := s.workers.set i .exited }
  else if s.stop && s.tasks.isEmpty then
    { s with workers := s.workers.set i .exited }
  else
    match s.tasks with
    | [] => s
    | t :: rest =>
      { s with tasks := rest, workers := s.workers.set i (.running t) }

/-- One transition of the pool: a waiting worker whose wake predicate
holds runs its critical section; a running worker finishes its task
(whose `wrap_task` wrapper skips the body if `should_terminate()`), and
loops; a client enqueues while no shutdown was requested (`enqueue`
throws otherwise and changes nothing). -/
inductive PoolStep : PoolState → PoolState → Prop where
  | wake (s : PoolState) (i : Nat) (h : s.workers.get? i = some .waiting)
      (hp : workerWakePred s = true) : PoolStep s (wakeResult s i)
  | finish (s : PoolState) (i : Nat) (t : Nat)
      (h : s.workers.get? i = some (.running t)) :
      PoolStep s { s with
        workers := s.workers.set i .waiting,
        executed :=
          s.executed ++ (if s.terminate_now then [] else [t]) }
  | enqueueTask (s : PoolState) (t : Nat)
      (h : (s.stop || s.terminate_now) = false) :
      PoolStep s { s with tasks := s.tasks ++ [t] }

/-- Reflexive-transitive closure of `PoolStep`. -/
inductive PoolReach : PoolState → PoolState → Prop where
  | refl (s : PoolState) : PoolReach s s
  | tail {s t u : PoolState} : PoolReach s t → PoolStep t u → PoolReach s u

/-- `ThreadPool::enqueue` (`threadpool.cpp:52-62`): under the queue lock,
throw if a stop or terminate was requested, otherwise push the wrapped
task. -/
def ThreadPool.enqueue (s : PoolState) (t : Nat) :
    Except String PoolState :=
  if s.stop || s.terminate_now then
    .error "[ThreadPool] Cannot enqueue on stopped or terminated pool."
  else .ok { s with tasks := s.tasks ++ [t] }

/-- The flag write of `ThreadPool::wait` (`threadpool.cpp:66-68`): under
the lock, `stop_ = true` (then `notify_all` and the joins). -/
def ThreadPool.requestStop (s : PoolState) : PoolState :=
  { s with stop := true }

/-- The flag write of `ThreadPool::terminate` (`threadpool.cpp:81-84`). -/
def ThreadPool.requestTerminate (s : PoolState) : PoolState :=
  { s with terminate_now := true }

/-- The pool state at the moment `ThreadPool::wait` has set the stop flag
and issued `notify_all`: `n` live workers all inside `condition_.wait`,
the tasks enqueued before `wait()` still queued, none executed yet. -/
def afterWaitState (n : Nat) (pending : List Nat) : PoolState :=
  ⟨pending, true, false, List.replicate n .waiting, []⟩

/-! ### Transport identity handling (`client.cpp`, transport part) -/

/-- `std::stoi`: skip whitespace, optional sign, then at least one digit
(else `std::invalid_argument`); parse the digit run (the out-of-range
throw is not modelled — no identity the repository produces reaches it). -/
def std_stoi (s : String) : Except String Int :=
  let cs := s.data.dropWhile (fun c => isWsCh c || c = '\x0b' || c = '\x0c')
  let (neg, cs') : Bool × List Char :=
    match cs with
    | '-' :: r => (true, r)
    | '+' :: r => (false, r)
    | r => (false, r)
  match takeDigits cs' with
  | ([], _) => .error "stoi"
  | (ds, _) => .ok (if neg then -(digitsVal ds : Int) else (digitsVal ds : Int))

/-- A completed server-side reply write on a connection-oriented backend:
which descriptor was written and closed. -/
structure StreamReply where
  fd : Int
  data : String
deriving DecidableEq, Repr

/-- A datagram actually handed to `sendto` by the UDP backend. -/
structure UdpDatagram where
  ip : String
  port : Int
  data : String
deriving DecidableEq, Repr

/-- `UnixSocketTransport::send(data, client_id)` (`client.cpp` transport
section): `std::stoi` the identity (which throws on an unparsable one),
then write and close that descriptor. -/
def UnixSocketTransport.sendTo (data : String) (client_id : String) :
    Except String StreamReply := do
  let client_fd ← std_stoi client_id
  .ok ⟨client_fd, data⟩

/-- `TcpTransport::send(data, client_id)`: identical identity handling to
the Unix backend. -/
def TcpTransport.sendTo (data : String) (client_id : String) :
    Except String StreamReply := do
  let client_fd ← std_stoi client_id
  .ok ⟨client_fd, data⟩

/-- `UdpTransport::send(data, client_id)`: find `":"`; if absent, return
silently — nothing is sent and no error is raised; otherwise split into
ip and port text, `std::stoi` the port (this can throw) and send the
datagram (`inet_pton`'s result is ignored by the source). -/
def UdpTransport.sendTo (data : String) (client_id : String) :
    Except String (Option UdpDatagram) :=
  match client_id.data.findIdx? (fun c => c = ':') with
  | none => .ok none
  | some delim => do
    let ip : String := ⟨client_id.data.take delim⟩
    let port ← std_stoi ⟨client_id.data.drop (delim + 1)⟩
    .ok (some ⟨ip, port, data⟩)

mutual
/-- Structural (type-and-value) equality of json values, the sense in
which an "extra key" addition leaves the constrained keys untouched. -/
def Json.beqStrict : Json → Json → Bool
  | .null, .null => true
  | .boolean a, .boolean b => a == b
  | .intNum a, .intNum b => a == b
  | .uintNum a, .uintNum b => a == b
  | .floatNum a, .floatNum b => a == b
  | .str a, .str b => a == b
  | .arr a, .arr b => a.beqItems b
  | .obj a, .obj b => a.beqEntries b
  | _, _ => false

/-- Itemwise structural equality of arrays. -/
def JsonArr.beqItems : JsonArr → JsonArr → Bool
  | .nil, .nil => true
  | .cons v tl, .cons w tl' => v.beqStrict w && tl.beqItems tl'
  | _, _ => false

/-- Entrywise structural equality of objects. -/
def JsonObj.beqEntries : JsonObj → JsonObj → Bool
  | .nil, .nil => true
  | .cons k v tl, .cons k' w tl' =>
    k == k' && v.beqStrict w && tl.beqEntries tl'
  | _, _ => false
end

mutual
/-- How an object `o'` may extend `o` relative to one schema node: on a
type-constrained key the values coincide; under a nested schema both
values are objects and the extension continues recursively — everywhere
else (keys the schema does not name) `o'` is unconstrained. -/
def extendsVal : ParamSchema → Json → Json → Bool
  | .ptype _, v, v' => v.beqStrict v'
  | .ptypes _, v, v' => v.beqStrict v'
  | .pnested m, v, v' =>
    match v, v' with
    | .obj o, .obj o' => extendsOn m o o'
    | _, _ => false

/-- `o'` agrees with `o` on every key the schema constrains (and may hold
any extra keys besides). -/
def extendsOn : SchemaMap → JsonObj → JsonObj → Bool
  | .nil, _, _ => true
  | .cons k sval tl, o, o' =>
    (match o.find? k, o'.find? k with
    | some v, some v' => extendsVal sval v v'
    | _, _ => false) && extendsOn tl o o'
end

/-! ### Equality, canonical form and wire-representability of values -/

/-- The `static_cast<int64_t>` a `number_unsigned` undergoes when
`operator==` compares it with a `number_integer`. -/
def castU2I (n : Nat) : Int :=
  if n < 2 ^ 63 then (n : Int) else (n : Int) - 2 ^ 64

/-- The rational value of the decimal float literal (the abstraction of
the `double` the lexer would produce from it). -/
def floatLitVal (f : FloatLit) : Rat :=
  (if f.neg then -1 else 1) *
    ((f.ipart : Rat) + (digitsVal f.frac : Rat) / (10 : Rat) ^ f.frac.length)
    * (10 : Rat) ^ f.ex

mutual
/-- `nlohmann::json::operator==`: same-type values compare componentwise
(arrays itemwise, objects — `std::map`s — entrywise), and the three
numeric kinds cross-compare by value (`unsigned` is cast to the signed
64-bit type against `integer`; comparisons against the float kind go
through the decimal-literal abstraction instead of IEEE doubles). -/
def Json.jsonEq : Json → Json → Bool
  | .null, .null => true
  | .boolean a, .boolean b => a == b
  | .intNum a, .intNum b => a == b
  | .intNum a, .uintNum b => a == castU2I b
  | .intNum a, .floatNum g => (a : Rat) == floatLitVal g
  | .uintNum a, .intNum b => castU2I a == b
  | .uintNum a, .uintNum b => a == b
  | .uintNum a, .floatNum g => (a : Rat) == floatLitVal g
  | .floatNum f, .intNum b => floatLitVal f == (b : Rat)
  | .floatNum f, .uintNum b => floatLitVal f == (b : Rat)
  | .floatNum f, .floatNum g => floatLitVal f == floatLitVal g
  | .str a, .str b => a == b
  | .arr a, .arr b => a.eqItems b
  | .obj a, .obj b => a.eqEntries b
  | _, _ => false

/-- Itemwise `operator==` on arrays. -/
def JsonArr.eqItems : JsonArr → JsonArr → Bool
  | .nil, .nil => true
  | .cons v tl, .cons w tl' => v.jsonEq w && tl.eqItems tl'
  | _, _ => false

/-- Entrywise `operator==` on objects (both maps traverse in key order). -/
def JsonObj.eqEntries : JsonObj → JsonObj → Bool
  | .nil, .nil => true
  | .cons k v tl, .cons k' w tl' => k == k' && v.jsonEq w && tl.eqEntries tl'
  | _, _ => false
end

mutual
/-- The parser's normal form of a value: a non-negative `number_integer`
comes back from the wire as `number_unsigned` (the lexer produces
`value_unsigned` for unsigned literals); everything else keeps its
shape. -/
def Json.canon : Json → Json
  | .intNum i => if 0 ≤ i then .uintNum i.toNat else .intNum i
  | .arr a => .arr a.canonItems
  | .obj o => .obj o.canonEntries
  | v => v

/-- `canon` itemwise. -/
def JsonArr.canonItems : JsonArr → JsonArr
  | .nil => .nil
  | .cons v tl => .cons v.canon tl.canonItems

/-- `canon` on each entry's value (keys untouched). -/
def JsonObj.canonEntries : JsonObj → JsonObj
  | .nil => .nil
  | .cons k v tl => .cons k v.canon tl.canonEntries
end

/-- Is the first key of the object (if any) above `k`?  Part of the
`std::map` sorted invariant. -/
def JsonObj.keyBelowHead (k : String) : JsonObj → Bool
  | .nil => true
  | .cons k' _ _ => decide (k < k')

mutual
/-- A value the C++ process can actually hold and put on the wire: object
keys strictly sorted (the `std::map` invariant), numbers within their
64-bit storage, and no floats (IEEE doubles are outside the embedding). -/
def Json.wireOk : Json → Bool
  | .null => true
  | .boolean _ => true
  | .intNum i => decide (-(2 ^ 63 : Int) ≤ i) && decide (i < 2 ^ 63)
  | .uintNum n => decide (n < 2 ^ 64)
  | .floatNum _ => false
  | .str _ => true
  | .arr a => a.wireOkItems
  | .obj o => o.wireOkEntries

/-- `wireOk` itemwise. -/
def JsonArr.wireOkItems : JsonArr → Bool
  | .nil => true
  | .cons v tl => v.wireOk && tl.wireOkItems

/-- `wireOk` entrywise plus the sorted-keys invariant. -/
def JsonObj.wireOkEntries : JsonObj → Bool
  | .nil => true
  | .cons k v tl => v.wireOk && tl.wireOkEntries && tl.keyBelowHead k
end

mutual
/-- Fuel sufficient for `parseValueF` to read the value back. -/
def Json.pfuel : Json → Nat
  | .arr a => a.itemsFuel + 1
  | .obj o => o.entriesFuel + 1
  | _ => 1

/-- Fuel sufficient for `parseArrItemsF` on the dumped items. -/
def JsonArr.itemsFuel : JsonArr → Nat
  | .nil => 0
  | .cons v tl => v.pfuel + tl.itemsFuel + 1

/-- Fuel sufficient for `parseObjEntriesF` on the dumped entries. -/
def JsonObj.entriesFuel : JsonObj → Nat
  | .nil => 0
  | .cons _ v tl => v.pfuel + tl.entriesFuel + 1
end

/-- The characters that may legitimately follow a dumped value inside a
larger dump: nothing (end of input), a separating comma, or a closing
bracket.  A number token stops exactly at such a character. -/
def boundaryOk : List Char → Bool
  | [] => true
  | c :: _ => c = ',' || c = '\x7d' || c = ']'

/-- An object literally made of the listed entries, in order. -/
def JsonObj.ofList : List (String × Json) → JsonObj
  | [] => .nil
  | (k, v) :: tl => .cons k v (JsonObj.ofList tl)

/-- The textual entry list `parseObjEntriesF` produces when reading the
dump of `o` back: the keys in order, the values in parsed normal form. -/
def JsonObj.canonEntriesList : JsonObj → List (String × Json)
  | .nil => []
  | .cons k v tl => (k, v.canon) :: tl.canonEntriesList

/-- Concatenation of two objects (used to reason about `setKey` when the
key is above everything in the accumulator). -/
def JsonObj.concatObj : JsonObj → JsonObj → JsonObj
  | .nil, o => o
  | .cons k v tl, o => .cons k v (tl.concatObj o)

/-- All keys of the object are strictly below `k`. -/
def JsonObj.keysBelow : JsonObj → String → Bool
  | .nil, _ => true
  | .cons k' _ tl, k => decide (k' < k) && tl.keysBelow k

/-- Adjacent keys of a textual entry list are strictly increasing. -/
def entriesSorted : List (String × Json) → Bool
  | [] => true
  | [_] => true
  | (k, _) :: (k', w) :: tl =>
    decide (k < k') && entriesSorted ((k', w) :: tl)

/-- The value of a least-significant-first digit-character run (what
`natDigitsRev` emits). -/
def lsbVal : List Char → Nat
  | [] => 0
  | c :: cs => (c.toNat - 48) + 10 * lsbVal cs

/-- The `oneOf(number_integer, number_float)` schema for key `n`. -/
def schemaN : SchemaMap :=
  .cons "n" (.ptypes [.number_integer, .number_float]) .nil

/-- The nested schema `{"meta": {"retries": number_integer}}`. -/
def schemaMeta : SchemaMap :=
  .cons "meta" (.pnested (.cons "retries" (.ptype .number_integer) .nil)) .nil

/-- The transport round trip as the serving loop completes it: the request
bytes are delivered to the server, whose per-message task computes the
response that is sent back. -/
def serverRoundTrip (handlers : List (String × HandlerFn)) :
    String → Except String String :=
  fun req_bytes => .ok ((serveTask handlers req_bytes).1.dump)

/-! ### Helper lemmas -/

/-- `error({}, message)` materializes to the two-field failure envelope
(the `std::map` puts `_msg` before `_success`). -/
theorem error_null_eq (message : String) :
    error .null message = .ok (errEnvelope message) := by
  with_unfolding_all rfl

/-- A failure envelope carries `_success = false`. -/
theorem errEnvelope_success (m : String) :
    (errEnvelope m).atKey "_success" = some (.boolean false) := by
  with_unfolding_all rfl

/-- A failure envelope carries its message under `_msg`. -/
theorem errEnvelope_msg (m : String) :
    (errEnvelope m).atKey "_msg" = some (.str m) := by
  with_unfolding_all rfl

/-- Reading `_success` out of a failure envelope yields `false`. -/
theorem valueBool_errEnvelope (m : String) :
    (errEnvelope m).valueBool "_success" false = .ok false := by
  with_unfolding_all rfl

/-- `setKey` binds the written key. -/
theorem JsonObj.find?_setKey_self :
    (o : JsonObj) → (k : String) → (v : Json) →
      (o.setKey k v).find? k = some v
  | .nil, k, v => by simp [JsonObj.setKey, JsonObj.find?]
  | .cons key w tl, k, v => by
    by_cases h1 : k < key
    · simp [JsonObj.setKey, JsonObj.find?, h1]
    · by_cases h2 : k = key
      · simp [JsonObj.setKey, JsonObj.find?, h1, h2]
      · simp [JsonObj.setKey, JsonObj.find?, h1, h2, Ne.symm h2,
          JsonObj.find?_setKey_self tl k v]

/-- `setKey` leaves every other key's binding unchanged. -/
theorem JsonObj.find?_setKey_ne :
    (o : JsonObj) → (k : String) → (v : Json) → (k' : String) →
      k' ≠ k → (o.setKey k v).find? k' = o.find? k'
  | .nil, k, v, k', h => by
    simp [JsonObj.setKey, JsonObj.find?, Ne.symm h]
  | .cons key w tl, k, v, k', h => by
    by_cases h1 : k < key
    · simp [JsonObj.setKey, JsonObj.find?, h1, Ne.symm h]
    · by_cases h2 : k = key
      · subst h2
        simp [JsonObj.setKey, JsonObj.find?, h1, Ne.symm h]
      · by_cases h3 : key = k'
        · subst h3
          simp only [JsonObj.setKey]
          rw [if_neg h1, if_neg h2]
          simp [JsonObj.find?]
        · simp [JsonObj.setKey, JsonObj.find?, h1, h2, h3,
            JsonObj.find?_setKey_ne tl k v k' h]

/-! ### C5 — concrete schema validations -/

/-- C5: `{"n":5}` and `{"n":5.2}` validate against
`{"n": oneOf(number_integer, number_float)}`; `{"n":"5"}` fails with the
type-mismatch error naming path `n` and listing the allowed types;
`{"meta":1}` fails against `{"meta":{"retries": number_integer}}` with the
non-object error at the nested key, and `{"meta":{"retries":3}}`
validates. -/
theorem schema_validation_examples :
    assert_parameters (.obj (.cons "n" (.intNum 5) .nil)) schemaN = .ok () ∧
    assert_parameters (.obj (.cons "n" (.floatNum ⟨false, 5, [2], 0⟩) .nil))
      schemaN = .ok () ∧
    assert_parameters (.obj (.cons "n" (.str "5") .nil)) schemaN =
      .error "Wrong type for key 'n' (expected one of [number_integer, number_float], got string)" ∧
    assert_parameters (.obj (.cons "meta" (.intNum 1) .nil)) schemaMeta =
      .error "Expected object at key: meta" ∧
    assert_parameters
      (.obj (.cons "meta" (.obj (.cons "retries" (.intNum 3) .nil)) .nil))
      schemaMeta = .ok () := by
  refine ⟨?_, ?_, ?_, ?_, ?_⟩ <;> with_unfolding_all rfl

/-! ### C6 — `send_request_bg` callback discipline (a bug in the code) -/

/-- C6: the claim fails on the code.  When the request succeeds and the
callback throws on the success envelope, the `catch` block at
`client.cpp:49-51` invokes the callback a second time, with a synthesized
failure envelope carrying the callback's own error text; and when that
second invocation throws as well, the exception escapes the detached
thread.  Evaluating the embedded thread body on such a callback exhibits
two invocations and a propagated error. -/
theorem send_request_bg_double_invocation :
    send_request_bg_body
      (.ok (.obj (.cons "_success" (.boolean true) .nil)))
      (fun _ => .error "callback failure") =
    ([.obj (.cons "_success" (.boolean true) .nil),
      errEnvelope "callback failure"], some "callback failure") := by
  with_unfolding_all rfl

/-! ### C7 — unparsable reply identities across the three backends -/

/-- C7 counterexample: on the identity `"noport"` (no `":"`), the UDP
backend does not fail — `UdpTransport::send` returns silently and nothing
is sent — while the Unix backend throws out of `std::stoi`.  This refutes
"each backend fails with a SendError (none silently does nothing)". -/
theorem transport_send_unparsable_identity_inconsistent :
    UdpTransport.sendTo (Json.dump (.obj .nil)) "noport" = .ok none ∧
    UnixSocketTransport.sendTo (Json.dump (.obj .nil)) "noport" =
      .error "stoi" := by
  exact ⟨by with_unfolding_all rfl, by with_unfolding_all rfl⟩

/-- C7 amended: the Unix and TCP backends fail (an exception out of
`std::stoi`) whenever the identity does not parse as an integer; the UDP
backend, on an identity with no `":"`, silently returns without sending
anything and without failing, and fails only when the part after `":"` is
not numeric. -/
theorem transport_send_unparsable_identity_amended
    (data client_id : String) :
    (∀ msg, std_stoi client_id = .error msg →
      UnixSocketTransport.sendTo data client_id = .error msg ∧
      TcpTransport.sendTo data client_id = .error msg) ∧
    (client_id.data.findIdx? (fun c => c = ':') = none →
      UdpTransport.sendTo data client_id = .ok none) ∧
    (∀ delim msg, client_id.data.findIdx? (fun c => c = ':') = some delim →
      std_stoi ⟨client_id.data.drop (delim + 1)⟩ = .error msg →
      UdpTransport.sendTo data client_id = .error msg) := by
  refine ⟨fun msg h => ?_, fun h => ?_, fun delim msg h1 h2 => ?_⟩
  · constructor <;>
      simp [UnixSocketTransport.sendTo, TcpTransport.sendTo, h, Bind.bind,
        Except.bind]
  · simp [UdpTransport.sendTo, h]
  · simp [UdpTransport.sendTo, h1, h2, Bind.bind, Except.bind]

/-- C7 witness: the amended theorem applied at the identity `"noport"`
and at `"1.2.3.4:x"`. -/
theorem transport_send_unparsable_identity_witness :
    UnixSocketTransport.sendTo "d" "noport" = .error "stoi" ∧
    UdpTransport.sendTo "d" "noport" = .ok none ∧
    UdpTransport.sendTo "d" "1.2.3.4:x" = .error "stoi" := by
  refine ⟨((transport_send_unparsable_identity_amended "d" "noport").1 "stoi"
      (by with_unfolding_all rfl)).1,
    (transport_send_unparsable_identity_amended "d" "noport").2.1
      (by with_unfolding_all rfl),
    (transport_send_unparsable_identity_amended "d" "1.2.3.4:x").2.2 7 "stoi"
      (by with_unfolding_all rfl) (by with_unfolding_all rfl)⟩

/-! ### C1 — `wait()` and the worker wake predicate (a bug in the code) -/

/-- Every lookup in a replicated list yields the replicated element. -/
theorem get?_replicate_eq {α : Type} {a b : α} :
    ∀ (n i : Nat), (List.replicate n a).get? i = some b → b = a
  | 0, i, h => by simp [List.replicate] at h
  | n + 1, 0, h => by
    simp [List.replicate] at h
    exact h.symm
  | n + 1, i + 1, h =>
    get?_replicate_eq n i (by simpa [List.replicate] using h)

/-- C1 fails on the code: the wake predicate
`terminate_now_ || (!tasks_.empty() && !stop_)` (`threadpool.cpp:24-26`)
can never become true once `wait()` has set `stop_` (and no terminate was
requested), whatever the queue holds — so no waiting worker ever leaves
`condition_.wait` again.  From the state `wait()` creates, the pool takes
no step at all: the pending tasks are never executed, every worker stays
waiting forever, and the joins in `wait()` (hence `wait()` itself) never
return.  This contradicts both the claim and the header's own
documentation of `wait()` ("waits for all currently enqueued tasks to
complete and joins all threads"). -/
theorem threadpool_wait_deadlock (n : Nat) (pending : List Nat)
    (s : PoolState) (h : PoolReach (afterWaitState n pending) s) :
    s.executed = [] ∧ s.tasks = pending ∧
      ∀ w ∈ s.workers, w = WorkerStatus.waiting := by
  have hfix : s = afterWaitState n pending := by
    induction h with
    | refl => rfl
    | tail hreach hstep ih =>
      subst ih
      cases hstep with
      | wake i hw hp => simp [workerWakePred, afterWaitState] at hp
      | finish i t hw =>
        have := get?_replicate_eq n i hw
        cases this
      | enqueueTask t hflag => simp [afterWaitState] at hflag
  subst hfix
  refine ⟨rfl, rfl, fun w hw => ?_⟩
  exact List.eq_of_mem_replicate hw

/-- C1 witness: the deadlocked facts at one worker and one pending task. -/
theorem threadpool_wait_deadlock_witness :
    (afterWaitState 1 [0]).executed = [] ∧
      (afterWaitState 1 [0]).tasks = [0] ∧
      ∀ w ∈ (afterWaitState 1 [0]).workers, w = WorkerStatus.waiting :=
  threadpool_wait_deadlock 1 [0] (afterWaitState 1 [0])
    (PoolReach.refl (afterWaitState 1 [0]))

/-! ### C2 — no submission is accepted after a shutdown request -/

/-- Pool transitions never clear the shutdown flags. -/
theorem poolStep_flags {s t : PoolState} (h : PoolStep s t) :
    t.stop = s.stop ∧ t.terminate_now = s.terminate_now := by
  cases h with
  | wake i hw hp =>
    unfold wakeResult
    split
    · exact ⟨rfl, rfl⟩
    · split
      · exact ⟨rfl, rfl⟩
      · split
        · exact ⟨rfl, rfl⟩
        · exact ⟨rfl, rfl⟩
  | finish i t hw => exact ⟨rfl, rfl⟩
  | enqueueTask t hflag => exact ⟨rfl, rfl⟩

/-- Shutdown flags persist along any run of the pool. -/
theorem poolReach_flags {s t : PoolState} (h : PoolReach s t) :
    t.stop = s.stop ∧ t.terminate_now = s.terminate_now := by
  induction h with
  | refl => exact ⟨rfl, rfl⟩
  | tail hreach hstep ih =>
    have h2 := poolStep_flags hstep
    exact ⟨h2.1.trans ih.1, h2.2.trans ih.2⟩

/-- C2: once `wait()` or `terminate()` has set its flag, every later
submission fails with the pool-closed error — `enqueue` checks the flags
and pushes under the same lock (`threadpool.cpp:52-62`), its `throw`
leaves the queue untouched, and no pool transition ever clears a flag. -/
theorem enqueue_after_shutdown_fails (s s' : PoolState) (t : Nat)
    (h : PoolReach (ThreadPool.requestStop s) s' ∨
      PoolReach (ThreadPool.requestTerminate s) s') :
    ThreadPool.enqueue s' t =
      .error "[ThreadPool] Cannot enqueue on stopped or terminated pool." := by
  cases h with
  | inl h =>
    have := (poolReach_flags h).1
    simp [ThreadPool.requestStop] at this
    simp [ThreadPool.enqueue, this]
  | inr h =>
    have := (poolReach_flags h).2
    simp [ThreadPool.requestTerminate] at this
    simp [ThreadPool.enqueue, this]

/-- C2 witness: submitting right after `wait()`'s flag write on a fresh
pool fails with the pool-closed error. -/
theorem enqueue_after_shutdown_fails_witness :
    ThreadPool.enqueue (ThreadPool.requestStop ⟨[], false, false, [], []⟩) 5 =
      .error "[ThreadPool] Cannot enqueue on stopped or terminated pool." :=
  enqueue_after_shutdown_fails ⟨[], false, false, [], []⟩ _ 5
    (Or.inl (PoolReach.refl _))

/-! ### C3 — malformed JSON / missing `_cmd` -/

/-- C3 counterexample: the claim as stated is false.  A message that
parses but lacks `_cmd` is dispatched under the sentinel command name
`"<no _cmd>"` (the default of `request.value("_cmd", "<no _cmd>")` at
`server.cpp:70`), so a handler registered under that literal name IS
invoked and its (here successful) reply is sent: for the message `{}`
and such a registry, the reply is a success envelope and the handler ran. -/
theorem serve_sentinel_handler_invoked :
    serveTask [("<no _cmd>", fun j => okay j)] (Json.dump (.obj .nil)) =
      (.obj (.cons "_success" (.boolean true) .nil), ["<no _cmd>"]) := by
  with_unfolding_all rfl

/-- C3 amended: for every received message whose bytes are not parseable
JSON, or whose parsed value lacks a `_cmd` field (including non-object
values), the server replies with a failure envelope (`_success:false`
plus a `_msg`) and invokes no handler — provided no handler is registered
under the literal sentinel name `"<no _cmd>"`, under which the code
dispatches messages that lack `_cmd`. -/
theorem serve_malformed_or_missing_cmd_amended
    (handlers : List (String × HandlerFn)) (data : String)
    (hsentinel : findHandler handlers "<no _cmd>" = none)
    (h : (∃ e, Json.parse data = .error e) ∨
      (∃ req, Json.parse data = .ok req ∧ req.atKey "_cmd" = none)) :
    (serveTask handlers data).1.atKey "_success" = some (.boolean false) ∧
    (∃ m, (serveTask handlers data).1.atKey "_msg" = some (.str m)) ∧
    (serveTask handlers data).2 = [] := by
  suffices hs : ∃ m', serveTask handlers data = (errEnvelope m', []) by
    obtain ⟨m', hm⟩ := hs
    rw [hm]
    exact ⟨errEnvelope_success m', ⟨m', errEnvelope_msg m'⟩, rfl⟩
  rcases h with ⟨e, he⟩ | ⟨req, hok, hnone⟩
  · exact ⟨_, by simp [serveTask, he]; rfl⟩
  · cases req with
    | obj o =>
      have hfind : o.find? "_cmd" = none := by
        simpa [Json.atKey] using hnone
      exact ⟨_, by
        simp [serveTask, hok, Json.valueStr, hfind, hsentinel,
          error_null_eq, valueBool_errEnvelope]
        rfl⟩
    | null => exact ⟨_, by simp [serveTask, hok, Json.valueStr]; rfl⟩
    | boolean b => exact ⟨_, by simp [serveTask, hok, Json.valueStr]; rfl⟩
    | intNum i => exact ⟨_, by simp [serveTask, hok, Json.valueStr]; rfl⟩
    | uintNum n => exact ⟨_, by simp [serveTask, hok, Json.valueStr]; rfl⟩
    | floatNum f => exact ⟨_, by simp [serveTask, hok, Json.valueStr]; rfl⟩
    | str s => exact ⟨_, by simp [serveTask, hok, Json.valueStr]; rfl⟩
    | arr a => exact ⟨_, by simp [serveTask, hok, Json.valueStr]; rfl⟩

/-- C3 witness: the amended theorem applied to the unparsable message
`"notjson"` and, with an empty registry, to the parsed message `{}`. -/
theorem serve_malformed_or_missing_cmd_witness :
    ((serveTask [] "notjson").1.atKey "_success" = some (.boolean false) ∧
      (∃ m, (serveTask [] "notjson").1.atKey "_msg" = some (.str m)) ∧
      (serveTask [] "notjson").2 = []) ∧
    ((serveTask [] (Json.dump (.obj .nil))).1.atKey "_success" =
        some (.boolean false) ∧
      (∃ m, (serveTask [] (Json.dump (.obj .nil))).1.atKey "_msg" =
        some (.str m)) ∧
      (serveTask [] (Json.dump (.obj .nil))).2 = []) := by
  constructor
  · exact serve_malformed_or_missing_cmd_amended [] "notjson"
      (by with_unfolding_all rfl)
      (Or.inl ⟨"invalid literal", by with_unfolding_all rfl⟩)
  · exact serve_malformed_or_missing_cmd_amended [] (Json.dump (.obj .nil))
      (by with_unfolding_all rfl)
      (Or.inr ⟨.obj .nil, by with_unfolding_all rfl, by with_unfolding_all rfl⟩)

/-! ### C4 — unknown command, end to end -/

/-- C4: with no handler registered for `"nope"`, the server answers the
request `{"_cmd":"nope"}` with exactly the failure envelope
`{"_msg":"Unknown command: nope","_success":false}` and invokes no
handler, and the client's `send_request("nope", {})` against that server
fails with `Request failed: Unknown command: nope` (the `RemoteError`
carrying the server's message). -/
theorem unknown_command_end_to_end (handlers : List (String × HandlerFn))
    (hnope : findHandler handlers "nope" = none) :
    serveTask handlers (Json.dump (.obj (.cons "_cmd" (.str "nope") .nil))) =
      (errEnvelope "Unknown command: nope", []) ∧
    errEnvelope "Unknown command: nope" =
      .obj (.cons "_msg" (.str "Unknown command: nope")
        (.cons "_success" (.boolean false) .nil)) ∧
    send_request (serverRoundTrip handlers) "nope" (.obj .nil) =
      .error "Request failed: Unknown command: nope" := by
  have hparse :
      Json.parse (Json.dump (.obj (.cons "_cmd" (.str "nope") .nil))) =
        .ok (.obj (.cons "_cmd" (.str "nope") .nil)) := by
    with_unfolding_all rfl
  have hval :
      (Json.obj (.cons "_cmd" (.str "nope") .nil)).valueStr "_cmd"
        "<no _cmd>" = .ok "nope" := by
    with_unfolding_all rfl
  have happ : ("Unknown command: " ++ "nope" : String) =
      "Unknown command: nope" := by with_unfolding_all rfl
  have hserve :
      serveTask handlers
          (Json.dump (.obj (.cons "_cmd" (.str "nope") .nil))) =
        (errEnvelope "Unknown command: nope", []) := by
    simp [serveTask, hparse, hval, hnope, error_null_eq,
      valueBool_errEnvelope, happ]
  have hbuild : send_request_build "nope" (.obj .nil) =
      .ok (.obj (.cons "_cmd" (.str "nope") .nil), .obj .nil) := by
    with_unfolding_all rfl
  have hclient : clientHandleReply ((errEnvelope "Unknown command: nope").dump)
      = .error "Request failed: Unknown command: nope" := by
    with_unfolding_all rfl
  refine ⟨hserve, by with_unfolding_all rfl, ?_⟩
  simp [send_request, hbuild, serverRoundTrip, hserve, hclient,
    Bind.bind, Except.bind]

/-- C4 witness: the end-to-end theorem at the empty registry. -/
theorem unknown_command_end_to_end_witness :
    serveTask [] (Json.dump (.obj (.cons "_cmd" (.str "nope") .nil))) =
      (errEnvelope "Unknown command: nope", []) ∧
    send_request (serverRoundTrip []) "nope" (.obj .nil) =
      .error "Request failed: Unknown command: nope" :=
  ⟨(unknown_command_end_to_end [] (by with_unfolding_all rfl)).1,
    (unknown_command_end_to_end [] (by with_unfolding_all rfl)).2.2⟩

/-! ### C9 — `send_request` builds the wire request on a copy -/

/-- C9: `Client::send_request` copies the payload, sets `_cmd` on the
copy (overwriting any `_cmd` the payload already had) and leaves the
caller's object untouched: the wire request binds `_cmd` to the command
name and agrees with the payload on every other key. -/
theorem send_request_build_frame (endpoint : String) (p : JsonObj) :
    send_request_build endpoint (.obj p) =
      .ok (.obj (p.setKey "_cmd" (.str endpoint)), .obj p) ∧
    (p.setKey "_cmd" (.str endpoint)).find? "_cmd" =
      some (.str endpoint) ∧
    (∀ k, k ≠ "_cmd" →
      (p.setKey "_cmd" (.str endpoint)).find? k = p.find? k) := by
  refine ⟨by simp [send_request_build, Json.setField, Bind.bind, Except.bind],
    ?_, ?_⟩
  · exact JsonObj.find?_setKey_self p "_cmd" (.str endpoint)
  · exact fun k hk => JsonObj.find?_setKey_ne p "_cmd" (.str endpoint) k hk

/-- C9 witness: at command `"echo"` and a payload that already carries a
`_cmd` field, the build overwrites `_cmd` and preserves the other key. -/
theorem send_request_build_frame_witness :
    send_request_build "echo"
      (.obj (.cons "_cmd" (.str "old") (.cons "v" (.uintNum 7) .nil))) =
      .ok (.obj (.cons "_cmd" (.str "echo") (.cons "v" (.uintNum 7) .nil)),
        .obj (.cons "_cmd" (.str "old") (.cons "v" (.uintNum 7) .nil))) ∧
    ((JsonObj.cons "_cmd" (.str "old") (.cons "v" (.uintNum 7) .nil)).setKey
        "_cmd" (.str "echo")).find? "v" =
      (JsonObj.cons "_cmd" (.str "old") (.cons "v" (.uintNum 7) .nil)).find?
        "v" := by
  refine ⟨?_, (send_request_build_frame "echo" _).2.2 "v" (by decide)⟩
  have h := (send_request_build_frame "echo"
    (.cons "_cmd" (.str "old") (.cons "v" (.uintNum 7) .nil))).1
  rw [h]
  with_unfolding_all rfl

/-! ### C10 — validation inspects only the keys the schema names -/

/-- Structurally equal values have equal `type()`s. -/
theorem Json.beqStrict_type {v v' : Json} (h : v.beqStrict v' = true) :
    v.type = v'.type := by
  cases v <;> cases v' <;> simp_all [Json.beqStrict, Json.type]

mutual
/-- One schema node's check is preserved under `extendsVal`. -/
theorem check_mono : (sval : ParamSchema) → (v v' : Json) → (fp : String) →
    checkSchemaVal v sval fp = .ok () → extendsVal sval v v' = true →
    checkSchemaVal v' sval fp = .ok ()
  | .ptype t, v, v', fp, hv, he => by
    have ht := Json.beqStrict_type he
    simp only [checkSchemaVal] at hv ⊢
    rwa [← ht]
  | .ptypes ts, v, v', fp, hv, he => by
    have ht := Json.beqStrict_type he
    simp only [checkSchemaVal] at hv ⊢
    rwa [← ht]
  | .pnested m, v, v', fp, hv, he => by
    cases v <;> cases v' <;> simp only [extendsVal] at he <;>
      try exact Bool.noConfusion he
    next o o' =>
      simp [checkSchemaVal, Json.isObject] at hv ⊢
      exact impl_mono m o o' fp hv he

/-- The whole walk of `assert_parameters_impl` is preserved under
`extendsOn`: extra keys never make a passing object fail. -/
theorem impl_mono : (s : SchemaMap) → (o o' : JsonObj) → (path : String) →
    assert_parameters_impl (.obj o) s path = .ok () →
    extendsOn s o o' = true →
    assert_parameters_impl (.obj o') s path = .ok ()
  | .nil, o, o', path, hv, he => by simp [assert_parameters_impl]
  | .cons k sval tl, o, o', path, hv, he => by
    simp only [extendsOn, Bool.and_eq_true] at he
    obtain ⟨he1, he2⟩ := he
    simp only [assert_parameters_impl, Json.atKey] at hv ⊢
    cases hfo : o.find? k with
    | none => rw [hfo] at hv; exact absurd hv (by simp)
    | some v =>
      rw [hfo] at hv he1
      cases hfo' : o'.find? k with
      | none => rw [hfo'] at he1; exact absurd he1 (by simp)
      | some v' =>
        rw [hfo'] at he1
        change extendsVal sval v v' = true at he1
        change (do
          checkSchemaVal v sval (if path = "" then k else path ++ "." ++ k)
          assert_parameters_impl (Json.obj o) tl path) = Except.ok () at hv
        change (do
          checkSchemaVal v' sval (if path = "" then k else path ++ "." ++ k)
          assert_parameters_impl (Json.obj o') tl path) = Except.ok ()
        cases hcv : checkSchemaVal v sval (if path = "" then k
            else path ++ "." ++ k) with
        | error e =>
          rw [hcv] at hv
          exact absurd hv (by simp [Bind.bind, Except.bind])
        | ok u =>
          cases u
          rw [hcv] at hv
          simp only [Bind.bind, Except.bind] at hv
          have h1 := check_mono sval v v' _ hcv he1
          have h2 := impl_mono tl o o' path hv he2
          rw [h1]
          simpa [Bind.bind, Except.bind] using h2
end

/-- C10: schema validation inspects only the keys named in the schema —
if an object validates, any object that agrees with it on the
schema-constrained keys (at every nesting level) and holds arbitrary
extra keys elsewhere validates as well; extra fields never cause a
failure. -/
theorem schema_extra_keys_monotone (s : SchemaMap) (o o' : JsonObj)
    (hv : assert_parameters (.obj o) s = .ok ())
    (he : extendsOn s o o' = true) :
    assert_parameters (.obj o') s = .ok () := by
  simp only [assert_parameters, Json.isObject, if_true] at hv ⊢
  exact impl_mono s o o' "" hv he

/-- C10 witness: `{"meta":{"retries":3}}` validates against the nested
schema, and so does the object with extra keys added at both levels. -/
theorem schema_extra_keys_monotone_witness :
    assert_parameters
      (.obj (.cons "extra" .null
        (.cons "meta"
          (.obj (.cons "aa" (.str "x") (.cons "retries" (.intNum 3) .nil)))
          .nil)))
      schemaMeta = .ok () :=
  schema_extra_keys_monotone schemaMeta
    (.cons "meta" (.obj (.cons "retries" (.intNum 3) .nil)) .nil)
    (.cons "extra" .null
      (.cons "meta"
        (.obj (.cons "aa" (.str "x") (.cons "retries" (.intNum 3) .nil)))
        .nil))
    (by with_unfolding_all rfl) (by with_unfolding_all rfl)

/-! ### C8 stage A — characters, digits and number tokens -/

/-- `toNat` inverts `Char.ofNat` below the surrogate range. -/
theorem charToNat_ofNat {n : Nat} (h : n < 55296) :
    (Char.ofNat n).toNat = n := by
  have hv : Nat.isValidChar n := Or.inl h
  simp [Char.ofNat, hv, Char.ofNatAux, Char.toNat, UInt32.toNat,
    UInt32.ofNat', Fin.ofNat']

/-- Code point of a digit character. -/
theorem digitChar_toNat {d : Nat} (h : d < 10) :
    (digitChar d).toNat = 48 + d := by
  unfold digitChar
  exact charToNat_ofNat (by omega)

/-- Digit characters satisfy the digit test. -/
theorem isDigitCh_digitChar {d : Nat} (h : d < 10) :
    isDigitCh (digitChar d) = true := by
  simp [isDigitCh, digitChar_toNat h]
  omega

/-- A digit character differs from any character outside the digit code
points. -/
theorem digitChar_ne {d : Nat} (h : d < 10) (c : Char)
    (hc : c.toNat < 48 ∨ 57 < c.toNat) : digitChar d ≠ c := by
  intro hEq
  have := congrArg Char.toNat hEq
  rw [digitChar_toNat h] at this
  omega

/-- Digit characters are not whitespace. -/
theorem isWsCh_digitChar {d : Nat} (h : d < 10) :
    isWsCh (digitChar d) = false := by
  simp [isWsCh, digitChar_ne h ' ' (by decide), digitChar_ne h '\t' (by decide),
    digitChar_ne h '\n' (by decide), digitChar_ne h '\r' (by decide)]

/-- A digit character is `'0'` exactly for the digit zero. -/
theorem digitChar_eq_zero_iff {d : Nat} (h : d < 10) :
    digitChar d = '0' ↔ d = 0 := by
  constructor
  · intro hEq
    have := congrArg Char.toNat hEq
    rw [digitChar_toNat h] at this
    have h0 : ('0' : Char).toNat = 48 := by decide
    omega
  · intro h0
    subst h0
    decide

/-- `hexVal?` inverts `hexChar`. -/
theorem hexVal?_hexChar {d : Nat} (h : d < 16) :
    hexVal? (hexChar d) = some d := by
  unfold hexChar
  by_cases h10 : d < 10
  · rw [if_pos h10]
    have ht := charToNat_ofNat (show 48 + d < 55296 by omega)
    simp [hexVal?, ht]
    omega
  · rw [if_neg h10]
    have ht := charToNat_ofNat (show 87 + d < 55296 by omega)
    have hc1 : (48 ≤ 87 + d && 87 + d ≤ 57) = false := by
      simp
      omega
    have hc2 : (97 ≤ 87 + d && 87 + d ≤ 102) = true := by
      simp
      omega
    simp [hexVal?, ht, hc1, hc2]

/-- `skipWs` keeps input that starts with a non-whitespace character. -/
theorem skipWs_cons {c : Char} {l : List Char} (h : isWsCh c = false) :
    skipWs (c :: l) = c :: l := by
  simp [skipWs, h]

/-- Nothing that may follow a dumped value starts with a digit. -/
theorem boundary_not_digit {rest : List Char} (hb : boundaryOk rest = true) :
    headIsDigit rest = false := by
  cases rest with
  | nil => rfl
  | cons c cs =>
    simp [boundaryOk] at hb
    rcases hb with (h | h) | h <;> subst h <;> with_unfolding_all rfl

/-- After the integer part, a boundary character ends the number token as
a plain integer (no fraction, no exponent). -/
theorem parseAfterInt_boundary (neg : Bool) (ip : Nat) (rest : List Char)
    (hb : boundaryOk rest = true) :
    parseAfterInt neg ip rest =
      .ok (if neg then .intNum (-(ip : Int)) else .uintNum ip, rest) := by
  cases rest with
  | nil => simp [parseAfterInt, parseExponent, Bind.bind, Except.bind]
  | cons c cs =>
    simp [boundaryOk] at hb
    rcases hb with (h | h) | h <;> subst h <;>
      simp [parseAfterInt, parseExponent, Bind.bind, Except.bind]

/-- `takeDigits` consumes exactly an all-digit prefix. -/
theorem takeDigits_append :
    ∀ (l rest : List Char), (∀ c ∈ l, isDigitCh c = true) →
      headIsDigit rest = false →
      takeDigits (l ++ rest) = (l.map (fun c => c.toNat - 48), rest)
  | [], rest, _, hr => by
    cases rest with
    | nil => rfl
    | cons c cs =>
      simp only [headIsDigit] at hr
      simp [takeDigits, hr]
  | c :: l, rest, hl, hr => by
    have hc : isDigitCh c = true := hl c (List.mem_cons_self c l)
    have ih := takeDigits_append l rest
      (fun x hx => hl x (List.mem_cons_of_mem c hx)) hr
    simp [takeDigits, hc, ih]

/-- Folding most-significant-first digits is the reverse of the
least-significant-first value. -/
theorem digitsVal_reverse_map :
    ∀ l : List Char,
      digitsVal (l.reverse.map (fun c => c.toNat - 48)) = lsbVal l
  | [] => rfl
  | c :: cs => by
    have ih := digitsVal_reverse_map cs
    have happ : ∀ (xs : List Nat) (d : Nat),
        digitsVal (xs ++ [d]) = digitsVal xs * 10 + d := by
      intro xs d
      simp [digitsVal, List.foldl_append]
    simp only [List.reverse_cons, List.map_append, List.map_cons,
      List.map_nil, happ, ih, lsbVal]
    omega

/-- The digit run `natDigitsRev` emits: all digits, of the right value,
ending with a most-significant digit that is nonzero unless `n = 0`. -/
theorem natDigitsRev_spec :
    ∀ (fuel n : Nat), n < fuel →
      (∀ c ∈ natDigitsRev fuel n, isDigitCh c = true) ∧
      lsbVal (natDigitsRev fuel n) = n ∧
      ∃ d tl, d < 10 ∧ (n ≠ 0 → d ≠ 0) ∧
        natDigitsRev fuel n = tl ++ [digitChar d]
  | 0, n, h => absurd h (by omega)
  | fuel + 1, n, h => by
    by_cases h10 : n < 10
    · simp only [natDigitsRev, if_pos h10]
      refine ⟨?_, ?_, n, [], h10, fun h0 => h0, by simp⟩
      · intro c hc
        simp at hc
        subst hc
        exact isDigitCh_digitChar h10
      · simp [lsbVal, digitChar_toNat h10]
    · simp only [natDigitsRev, if_neg h10]
      have hdiv : n / 10 < fuel := by
        have h1 : n / 10 < n := Nat.div_lt_self (by omega) (by omega)
        omega
      obtain ⟨ih1, ih2, d, tl, hd1, hd2, hd3⟩ :=
        natDigitsRev_spec fuel (n / 10) hdiv
      have hmod : n % 10 < 10 := Nat.mod_lt _ (by omega)
      refine ⟨?_, ?_, d, digitChar (n % 10) :: tl, hd1,
        fun _ => hd2 (by omega), by simp [hd3]⟩
      · intro c hc
        rcases List.mem_cons.mp hc with hc | hc
        · subst hc
          exact isDigitCh_digitChar hmod
        · exact ih1 c hc
      · simp only [lsbVal, digitChar_toNat hmod, ih2]
        omega

/-- `printNat n`: starts with a digit character (nonzero unless `n = 0`),
is all digits, and carries the value `n`. -/
theorem printNat_form (n : Nat) :
    ∃ d tl, d < 10 ∧ (n ≠ 0 → d ≠ 0) ∧
      printNat n = digitChar d :: tl ∧
      (∀ c ∈ printNat n, isDigitCh c = true) ∧
      digitsVal ((printNat n).map (fun c => c.toNat - 48)) = n := by
  obtain ⟨hdig, hval, d, tl, hd1, hd2, hform⟩ :=
    natDigitsRev_spec (n + 1) n (by omega)
  refine ⟨d, tl.reverse, hd1, hd2, ?_, ?_, ?_⟩
  · simp [printNat, hform]
  · intro c hc
    simp only [printNat, List.mem_reverse] at hc
    exact hdig c hc
  · simp only [printNat, digitsVal_reverse_map]
    exact hval

/-- Reading a number token back: `parseNumber` on `printNat n` followed by
a boundary yields exactly the unsigned value `n` (or its negation as
`number_integer` after a minus sign). -/
theorem parseNumber_printNat (neg : Bool) (n : Nat) (rest : List Char)
    (hb : boundaryOk rest = true) :
    parseNumber neg (printNat n ++ rest) =
      .ok (if neg then .intNum (-(n : Int)) else .uintNum n, rest) := by
  by_cases hn : n = 0
  · subst hn
    have h0 : printNat 0 = ['0'] := by with_unfolding_all rfl
    rw [h0]
    simp [parseNumber, boundary_not_digit hb,
      parseAfterInt_boundary neg 0 rest hb]
  · obtain ⟨d, tl, hd10, hd0, hform, hdig, hval⟩ := printNat_form n
    have htake := takeDigits_append (printNat n) rest hdig
      (boundary_not_digit hb)
    rw [hform] at htake hval ⊢
    have hne0 : ¬(digitChar d = '0') := by
      rw [digitChar_eq_zero_iff hd10]
      exact hd0 hn
    rw [List.cons_append]
    simp only [parseNumber, if_neg hne0, isDigitCh_digitChar hd10, if_true]
    have htake' : takeDigits (digitChar d :: (tl ++ rest)) =
        ((digitChar d :: tl).map (fun c => c.toNat - 48), rest) := by
      rw [← List.cons_append]
      exact htake
    rw [htake']
    simp only [List.map_cons] at hval
    have hfinal := parseAfterInt_boundary neg
      (digitsVal ((digitChar d :: tl).map (fun c => c.toNat - 48))) rest hb
    simpa [hval] using hfinal

/-! ### C8 stage B — string escaping round trip -/

/-- Reading an escaped string body back: `parseStringBody` on
`escapeString s` followed by the closing quote returns exactly `s`. -/
theorem parseStringBody_escape :
    ∀ (s rest : List Char),
      parseStringBody (escapeString s ++ '"' :: rest) = .ok (s, rest)
  | [], rest => by simp [escapeString, parseStringBody]
  | c :: cs, rest => by
    have ih := parseStringBody_escape cs rest
    by_cases h1 : c = '"'
    · subst h1
      simp [escapeString, escapeChar, parseStringBody, parseEscape, ih,
        Bind.bind, Except.bind]
    · by_cases h2 : c = '\\'
      · subst h2
        simp [escapeString, escapeChar, parseStringBody, parseEscape, ih,
          Bind.bind, Except.bind]
      · by_cases h3 : c = '\x08'
        · subst h3
          simp [escapeString, escapeChar, parseStringBody, parseEscape, ih,
            Bind.bind, Except.bind]
        · by_cases h4 : c = '\x0c'
          · subst h4
            simp [escapeString, escapeChar, parseStringBody, parseEscape, ih,
              Bind.bind, Except.bind]
          · by_cases h5 : c = '\n'
            · subst h5
              simp [escapeString, escapeChar, parseStringBody, parseEscape,
                ih, Bind.bind, Except.bind]
            · by_cases h6 : c = '\r'
              · subst h6
                simp [escapeString, escapeChar, parseStringBody, parseEscape,
                  ih, Bind.bind, Except.bind]
              · by_cases h7 : c = '\t'
                · subst h7
                  simp [escapeString, escapeChar, parseStringBody,
                    parseEscape, ih, Bind.bind, Except.bind]
                · by_cases h8 : c.toNat < 32
                  · have hhi : c.toNat / 16 < 16 := by omega
                    have hlo : c.toNat % 16 < 16 := by omega
                    have hzero : hexVal? '0' = some 0 := by
                      with_unfolding_all rfl
                    have hesc : escapeString (c :: cs) ++ '"' :: rest =
                        '\\' :: 'u' :: '0' :: '0' ::
                          hexChar (c.toNat / 16) :: hexChar (c.toNat % 16) ::
                          (escapeString cs ++ '"' :: rest) := by
                      simp [escapeString, escapeChar, h1, h2, h3, h4, h5,
                        h6, h7, h8]
                    rw [hesc]
                    have hps : ∀ l, parseStringBody ('\\' :: l) =
                        parseEscape l := by
                      intro l
                      with_unfolding_all rfl
                    have hpe : ∀ l, parseEscape ('u' :: l) =
                        parseUnicodeEscape l := by
                      intro l
                      with_unfolding_all rfl
                    rw [hps, hpe]
                    have hq : hexQuad '0' '0' (hexChar (c.toNat / 16))
                        (hexChar (c.toNat % 16)) = some c.toNat := by
                      simp [hexQuad, hzero, hexVal?_hexChar hhi,
                        hexVal?_hexChar hlo]
                      omega
                    simp only [parseUnicodeEscape, hq]
                    have hs1 : (decide (55296 ≤ c.toNat) &&
                        decide (c.toNat ≤ 56319)) = false := by
                      simp
                      omega
                    have hs2 : (decide (56320 ≤ c.toNat) &&
                        decide (c.toNat ≤ 57343)) = false := by
                      simp
                      omega
                    rw [hs1, hs2]
                    simp only [Bool.false_eq_true, if_false, ih,
                      Bind.bind, Except.bind]
                    rw [Char.ofNat_toNat]
                  · have hesc : escapeString (c :: cs) ++ '"' :: rest =
                        c :: (escapeString cs ++ '"' :: rest) := by
                      simp [escapeString, escapeChar, h1, h2, h3, h4, h5,
                        h6, h7, h8]
                    rw [hesc]
                    simp only [parseStringBody, if_neg h1, if_neg h2,
                      if_neg h8, ih, Bind.bind, Except.bind]

/-! ### C8 stage C — object building and dump shapes -/

/-- The dump of a wire-representable value begins with a significant
character: not whitespace, and none of the closing delimiters. -/
theorem dump_head_form (v : Json) (hw : v.wireOk = true) :
    ∃ c t, v.dumpChars = c :: t ∧ isWsCh c = false ∧
      c ≠ ']' ∧ c ≠ '\x7d' := by
  have hgood : ∀ c : Char, c ∈ ['n', 't', 'f', '"', '[', '\x7b'] →
      isWsCh c = false ∧ c ≠ ']' ∧ c ≠ '\x7d' := by decide
  cases v with
  | null => exact ⟨'n', _, rfl, hgood 'n' (by decide)⟩
  | boolean b =>
    cases b
    · exact ⟨'f', _, rfl, hgood 'f' (by decide)⟩
    · exact ⟨'t', _, rfl, hgood 't' (by decide)⟩
  | intNum i =>
    by_cases hneg : i < 0
    · exact ⟨'-', printNat i.natAbs, by simp [Json.dumpChars, printInt, hneg],
        by decide, by decide, by decide⟩
    · obtain ⟨d, tl, hd10, _, hform, _, _⟩ := printNat_form i.toNat
      refine ⟨digitChar d, tl, ?_, isWsCh_digitChar hd10,
        digitChar_ne hd10 ']' (by decide), digitChar_ne hd10 '\x7d' (by decide)⟩
      simp [Json.dumpChars, printInt, hneg, hform]
  | uintNum n =>
    obtain ⟨d, tl, hd10, _, hform, _, _⟩ := printNat_form n
    exact ⟨digitChar d, tl, by simp [Json.dumpChars, hform],
      isWsCh_digitChar hd10, digitChar_ne hd10 ']' (by decide),
      digitChar_ne hd10 '\x7d' (by decide)⟩
  | floatNum f => exact absurd hw (by simp [Json.wireOk])
  | str s => exact ⟨'"', _, rfl, hgood '"' (by decide)⟩
  | arr a => exact ⟨'[', _, rfl, hgood '[' (by decide)⟩
  | obj o => exact ⟨'\x7b', _, rfl, hgood '\x7b' (by decide)⟩

/-- Concatenating the empty object on the right is the identity. -/
theorem JsonObj.concatObj_nil : ∀ o : JsonObj, o.concatObj .nil = o
  | .nil => rfl
  | .cons k v tl => by
    simp [JsonObj.concatObj, JsonObj.concatObj_nil tl]

/-- Object concatenation is associative. -/
theorem JsonObj.concatObj_assoc :
    ∀ (a b c : JsonObj), (a.concatObj b).concatObj c =
      a.concatObj (b.concatObj c)
  | .nil, _, _ => rfl
  | .cons k v tl, b, c => by
    simp [JsonObj.concatObj, JsonObj.concatObj_assoc tl b c]

/-- `keysBelow` distributes over concatenation. -/
theorem JsonObj.keysBelow_concatObj :
    ∀ (a b : JsonObj) (x : String),
      (a.concatObj b).keysBelow x = (a.keysBelow x && b.keysBelow x)
  | .nil, b, x => rfl
  | .cons k v tl, b, x => by
    simp [JsonObj.concatObj, JsonObj.keysBelow,
      JsonObj.keysBelow_concatObj tl b x, Bool.and_assoc]

/-- When the key is above every key of the object, `setKey` appends. -/
theorem JsonObj.setKey_keysBelow :
    ∀ (o : JsonObj) (k : String) (v : Json), o.keysBelow k = true →
      o.setKey k v = o.concatObj (.cons k v .nil)
  | .nil, k, v, _ => rfl
  | .cons k' w tl, k, v, h => by
    simp only [JsonObj.keysBelow, Bool.and_eq_true, decide_eq_true_eq] at h
    obtain ⟨h1, h2⟩ := h
    simp [JsonObj.setKey, JsonObj.concatObj, lt_asymm h1, h1.ne',
      JsonObj.setKey_keysBelow tl k v h2]

/-- The tail of a sorted entry list is sorted. -/
theorem entriesSorted_tail {p : String × Json} {l : List (String × Json)}
    (h : entriesSorted (p :: l) = true) : entriesSorted l = true := by
  cases p with
  | mk k v =>
    cases l with
    | nil => rfl
    | cons q tl =>
      cases q with
      | mk k' w =>
        simp only [entriesSorted, Bool.and_eq_true] at h
        exact h.2

/-- The head key of a sorted entry list is below every later key. -/
theorem entriesSorted_head_lt :
    ∀ {k : String} {v : Json} {l : List (String × Json)},
      entriesSorted ((k, v) :: l) = true → ∀ p ∈ l, k < p.1
  | k, v, [], _, p, hp => absurd hp (by simp)
  | k, v, (k', w) :: tl, h, p, hp => by
    have h1 : k < k' := by
      simp only [entriesSorted, Bool.and_eq_true, decide_eq_true_eq] at h
      exact h.1
    have h2 : entriesSorted ((k', w) :: tl) = true := by
      simp only [entriesSorted, Bool.and_eq_true] at h
      exact h.2
    rcases List.mem_cons.mp hp with hp | hp
    · subst hp
      exact h1
    · exact lt_trans h1 (entriesSorted_head_lt h2 p hp)

/-- Folding `setKey` over a sorted entry list, starting from an
accumulator entirely below it, just concatenates the list. -/
theorem foldl_setKey_sorted :
    ∀ (l : List (String × Json)) (acc : JsonObj),
      entriesSorted l = true → (∀ p ∈ l, acc.keysBelow p.1 = true) →
      l.foldl (fun m e => m.setKey e.1 e.2) acc =
        acc.concatObj (JsonObj.ofList l)
  | [], acc, _, _ => by simp [JsonObj.ofList, JsonObj.concatObj_nil]
  | (k, v) :: tl, acc, hs, hb => by
    have hbk : acc.keysBelow k = true := hb (k, v) (by simp)
    have hset := JsonObj.setKey_keysBelow acc k v hbk
    have ih := foldl_setKey_sorted tl (acc.concatObj (.cons k v .nil))
      (entriesSorted_tail hs)
      (fun p hp => by
        rw [JsonObj.keysBelow_concatObj]
        have h1 : acc.keysBelow p.1 = true := hb p (List.mem_cons_of_mem _ hp)
        have h2 : k < p.1 := entriesSorted_head_lt hs p hp
        simp [h1, JsonObj.keysBelow, h2])
    simp only [List.foldl_cons, hset, ih, JsonObj.ofList]
    rw [JsonObj.concatObj_assoc]
    rfl

/-- `ofEntries` of a sorted entry list is the object spelled by the
list. -/
theorem ofEntries_sorted (l : List (String × Json))
    (hs : entriesSorted l = true) :
    JsonObj.ofEntries l = JsonObj.ofList l := by
  unfold JsonObj.ofEntries
  rw [foldl_setKey_sorted l .nil hs (fun p _ => rfl)]
  rfl

/-- Canonicalizing entries keeps the textual list's shape. -/
theorem ofList_canonEntriesList :
    ∀ o : JsonObj, JsonObj.ofList o.canonEntriesList = o.canonEntries
  | .nil => rfl
  | .cons k v tl => by
    simp [JsonObj.canonEntriesList, JsonObj.ofList, JsonObj.canonEntries,
      ofList_canonEntriesList tl]

/-- The map invariant makes the textual entry list sorted. -/
theorem canonEntriesList_sorted :
    ∀ o : JsonObj, o.wireOkEntries = true →
      entriesSorted o.canonEntriesList = true
  | .nil, _ => rfl
  | .cons k v tl, h => by
    simp only [JsonObj.wireOkEntries, Bool.and_eq_true] at h
    obtain ⟨⟨h1, h2⟩, h3⟩ := h
    cases tl with
    | nil => rfl
    | cons k' w tl2 =>
      simp only [JsonObj.keyBelowHead, decide_eq_true_eq] at h3
      have ih := canonEntriesList_sorted (.cons k' w tl2) h2
      simp only [JsonObj.canonEntriesList, entriesSorted,
        Bool.and_eq_true, decide_eq_true_eq] at ih ⊢
      exact ⟨h3, ih⟩

/-- Reading back the dumped entries of a sorted object rebuilds exactly
its canonical form. -/
theorem ofEntries_canonEntriesList (o : JsonObj)
    (hw : o.wireOkEntries = true) :
    JsonObj.ofEntries o.canonEntriesList = o.canonEntries := by
  rw [ofEntries_sorted _ (canonEntriesList_sorted o hw),
    ofList_canonEntriesList]

/-! ### C8 stage D — the round trip itself -/

/-- Every value needs at least one unit of fuel. -/
theorem pfuel_pos (v : Json) : 1 ≤ v.pfuel := by
  cases v <;> simp [Json.pfuel]

/-- Token dispatch: a minus sign starts a negated number. -/
theorem parseValueF_minus (f : Nat) (cs : List Char) :
    parseValueF (f + 1) ('-' :: cs) = parseNumber true cs := by
  with_unfolding_all rfl

/-- Token dispatch: a quote starts a string. -/
theorem parseValueF_quote (f : Nat) (Y : List Char) :
    parseValueF (f + 1) ('"' :: Y) =
      (do
        let (t, r) ← parseStringBody Y
        Except.ok (Json.str ⟨t⟩, r)) := by
  with_unfolding_all rfl

/-- Token dispatch: a digit starts an unsigned number. -/
theorem parseValueF_digit (f : Nat) (d : Nat) (hd : d < 10)
    (cs : List Char) :
    parseValueF (f + 1) (digitChar d :: cs) =
      parseNumber false (digitChar d :: cs) := by
  interval_cases d <;> with_unfolding_all rfl

/-- Token dispatch: `[` with a significant, non-`]` continuation starts a
nonempty array. -/
theorem parseValueF_lbracket (f : Nat) (c0 : Char) (t0 : List Char)
    (hws : isWsCh c0 = false) (hne : ¬c0 = ']') :
    parseValueF (f + 1) ('[' :: c0 :: t0) =
      (do
        let (a, r) ← parseArrItemsF f (c0 :: t0)
        Except.ok (Json.arr a, r)) := by
  simp only [parseValueF, skipWs_cons (by decide : isWsCh '[' = false),
    skipWs_cons hws]
  simp [headIs, hne, isDigitCh]

/-- Token dispatch: `{` with a significant, non-`}` continuation starts a
nonempty object. -/
theorem parseValueF_lbrace (f : Nat) (c0 : Char) (t0 : List Char)
    (hws : isWsCh c0 = false) (hne : ¬c0 = '\x7d') :
    parseValueF (f + 1) ('\x7b' :: c0 :: t0) =
      (do
        let (entries, r) ← parseObjEntriesF f (c0 :: t0)
        Except.ok (Json.obj (JsonObj.ofEntries entries), r)) := by
  simp only [parseValueF, skipWs_cons (by decide : isWsCh '\x7b' = false),
    skipWs_cons hws]
  simp [headIs, hne, isDigitCh]

/-- An object-entry list starts at a quote; one unfolding step. -/
theorem parseObjEntriesF_quote (f : Nat) (Y : List Char) :
    parseObjEntriesF (f + 1) ('"' :: Y) =
      (do
        let (k, r1) ← parseStringBody Y
        match skipWs r1 with
        | ':' :: r2 => do
          let (v, r3) ← parseValueF f r2
          (match skipWs r3 with
          | ',' :: r4 => do
            let (es, r5) ← parseObjEntriesF f r4
            Except.ok (((⟨k⟩ : String), v) :: es, r5)
          | '\x7d' :: r4 => Except.ok ([((⟨k⟩ : String), v)], r4)
          | _ =>
            Except.error "expected , or closing brace after object element")
        | _ => Except.error "expected : after object key") := by
  with_unfolding_all rfl

mutual
/-- Reading a dumped wire-representable value back yields its parsed
normal form and leaves exactly the trailing input. -/
theorem parse_dump :
    ∀ (v : Json) (fuel : Nat) (rest : List Char),
      v.pfuel ≤ fuel → v.wireOk = true → boundaryOk rest = true →
      parseValueF fuel (v.dumpChars ++ rest) = .ok (v.canon, rest)
  | .null, fuel, rest, hf, _, _ => by
    obtain ⟨f, rfl⟩ : ∃ f, fuel = f + 1 :=
      ⟨fuel - 1, by have := pfuel_pos Json.null; omega⟩
    rw [show (Json.null.dumpChars ++ rest) =
      'n' :: ('u' :: 'l' :: 'l' :: rest) from rfl]
    with_unfolding_all rfl
  | .boolean true, fuel, rest, hf, _, _ => by
    obtain ⟨f, rfl⟩ : ∃ f, fuel = f + 1 :=
      ⟨fuel - 1, by have := pfuel_pos (Json.boolean true); omega⟩
    rw [show ((Json.boolean true).dumpChars ++ rest) =
      't' :: ('r' :: 'u' :: 'e' :: rest) from rfl]
    with_unfolding_all rfl
  | .boolean false, fuel, rest, hf, _, _ => by
    obtain ⟨f, rfl⟩ : ∃ f, fuel = f + 1 :=
      ⟨fuel - 1, by have := pfuel_pos (Json.boolean false); omega⟩
    rw [show ((Json.boolean false).dumpChars ++ rest) =
      'f' :: ('a' :: 'l' :: 's' :: 'e' :: rest) from rfl]
    with_unfolding_all rfl
  | .intNum i, fuel, rest, hf, hw, hb => by
    obtain ⟨f, rfl⟩ : ∃ f, fuel = f + 1 :=
      ⟨fuel - 1, by have := pfuel_pos (Json.intNum i); omega⟩
    by_cases hneg : i < 0
    · have hdump : (Json.intNum i).dumpChars = '-' :: printNat i.natAbs := by
        simp [Json.dumpChars, printInt, hneg]
      rw [hdump, List.cons_append, parseValueF_minus,
        parseNumber_printNat true i.natAbs rest hb]
      have hcanon : (Json.intNum i).canon = .intNum i := by
        simp [Json.canon, not_le.mpr hneg]
      rw [hcanon]
      simp [abs_of_neg hneg]
    · have h0 : 0 ≤ i := not_lt.mp hneg
      have hdump : (Json.intNum i).dumpChars = printNat i.toNat := by
        simp [Json.dumpChars, printInt, hneg]
      obtain ⟨d, tl, hd10, _, hform, _, _⟩ := printNat_form i.toNat
      rw [hdump, hform, List.cons_append, parseValueF_digit f d hd10,
        ← List.cons_append, ← hform,
        parseNumber_printNat false i.toNat rest hb]
      have hcanon : (Json.intNum i).canon = .uintNum i.toNat := by
        simp [Json.canon, h0]
      rw [hcanon]
      simp
  | .uintNum n, fuel, rest, hf, hw, hb => by
    obtain ⟨f, rfl⟩ : ∃ f, fuel = f + 1 :=
      ⟨fuel - 1, by have := pfuel_pos (Json.uintNum n); omega⟩
    obtain ⟨d, tl, hd10, _, hform, _, _⟩ := printNat_form n
    rw [show (Json.uintNum n).dumpChars = printNat n from rfl, hform,
      List.cons_append, parseValueF_digit f d hd10,
      ← List.cons_append, ← hform, parseNumber_printNat false n rest hb]
    simp [Json.canon]
  | .floatNum g, fuel, rest, hf, hw, hb => by
    exact absurd hw (by simp [Json.wireOk])
  | .str s, fuel, rest, hf, hw, hb => by
    obtain ⟨f, rfl⟩ : ∃ f, fuel = f + 1 :=
      ⟨fuel - 1, by have := pfuel_pos (Json.str s); omega⟩
    have hdump : (Json.str s).dumpChars ++ rest =
        '"' :: (escapeString s.data ++ '"' :: rest) := by
      simp [Json.dumpChars]
    rw [hdump, parseValueF_quote, parseStringBody_escape s.data rest]
    simp [Bind.bind, Except.bind, Json.canon]
  | .arr .nil, fuel, rest, hf, hw, hb => by
    obtain ⟨f, rfl⟩ : ∃ f, fuel = f + 1 :=
      ⟨fuel - 1, by have := pfuel_pos (Json.arr .nil); omega⟩
    rw [show ((Json.arr .nil).dumpChars ++ rest) =
      '[' :: (']' :: rest) from rfl]
    with_unfolding_all rfl
  | .arr (.cons v tl), fuel, rest, hf, hw, hb => by
    obtain ⟨f, rfl⟩ : ∃ f, fuel = f + 1 :=
      ⟨fuel - 1, by have := pfuel_pos (Json.arr (.cons v tl)); omega⟩
    have hw' : (JsonArr.cons v tl).wireOkItems = true := hw
    have hfuel : (JsonArr.cons v tl).itemsFuel ≤ f := by
      have h1 : (Json.arr (JsonArr.cons v tl)).pfuel =
          (JsonArr.cons v tl).itemsFuel + 1 := rfl
      omega
    have hvok : v.wireOk = true := by
      simp only [JsonArr.wireOkItems, Bool.and_eq_true] at hw'
      exact hw'.1
    obtain ⟨c0, t0, hh, hws0, hne1, hne2⟩ := dump_head_form v hvok
    obtain ⟨X, hX⟩ : ∃ X, (JsonArr.cons v tl).dumpItems ++ ']' :: rest =
        v.dumpChars ++ X := by
      cases tl with
      | nil => exact ⟨']' :: rest, by simp [JsonArr.dumpItems]⟩
      | cons w tl2 =>
        exact ⟨',' :: ((JsonArr.cons w tl2).dumpItems ++ ']' :: rest),
          by simp [JsonArr.dumpItems]⟩
    have hdump : (Json.arr (JsonArr.cons v tl)).dumpChars ++ rest =
        '[' :: (c0 :: (t0 ++ X)) := by
      have h2 : (Json.arr (JsonArr.cons v tl)).dumpChars ++ rest =
          '[' :: ((JsonArr.cons v tl).dumpItems ++ ']' :: rest) := by
        simp [Json.dumpChars]
      rw [h2, hX, hh, List.cons_append]
    rw [hdump, parseValueF_lbracket f c0 (t0 ++ X) hws0 hne1,
      show c0 :: (t0 ++ X) = v.dumpChars ++ X by rw [hh, List.cons_append],
      ← hX, parse_dump_items v tl f rest hfuel hw']
    simp [Bind.bind, Except.bind, Json.canon]
  | .obj .nil, fuel, rest, hf, hw, hb => by
    obtain ⟨f, rfl⟩ : ∃ f, fuel = f + 1 :=
      ⟨fuel - 1, by have := pfuel_pos (Json.obj .nil); omega⟩
    rw [show ((Json.obj .nil).dumpChars ++ rest) =
      '\x7b' :: ('\x7d' :: rest) from rfl]
    with_unfolding_all rfl
  | .obj (.cons k v tl), fuel, rest, hf, hw, hb => by
    obtain ⟨f, rfl⟩ : ∃ f, fuel = f + 1 :=
      ⟨fuel - 1, by have := pfuel_pos (Json.obj (.cons k v tl)); omega⟩
    have hw' : (JsonObj.cons k v tl).wireOkEntries = true := hw
    have hfuel : (JsonObj.cons k v tl).entriesFuel ≤ f := by
      have h1 : (Json.obj (JsonObj.cons k v tl)).pfuel =
          (JsonObj.cons k v tl).entriesFuel + 1 := rfl
      omega
    obtain ⟨Y, hY⟩ : ∃ Y, (JsonObj.cons k v tl).dumpEntries ++ '\x7d' :: rest
        = '"' :: Y := by
      cases tl with
      | nil =>
        exact ⟨escapeString k.data ++ '"' :: ':' :: v.dumpChars ++
          '\x7d' :: rest, by simp [JsonObj.dumpEntries]⟩
      | cons k2 w tl2 =>
        exact ⟨(escapeString k.data ++ '"' :: ':' :: v.dumpChars) ++
          ',' :: ((JsonObj.cons k2 w tl2).dumpEntries ++ '\x7d' :: rest),
          by simp [JsonObj.dumpEntries]⟩
    have hdump : (Json.obj (JsonObj.cons k v tl)).dumpChars ++ rest =
        '\x7b' :: ('"' :: Y) := by
      have h2 : (Json.obj (JsonObj.cons k v tl)).dumpChars ++ rest =
          '\x7b' :: ((JsonObj.cons k v tl).dumpEntries ++ '\x7d' :: rest) := by
        simp [Json.dumpChars]
      rw [h2, hY]
    rw [hdump, parseValueF_lbrace f '"' Y (by decide) (by decide),
      ← hY, parse_dump_entries k v tl f rest hfuel hw']
    simp only [Bind.bind, Except.bind]
    rw [show JsonObj.ofEntries (JsonObj.cons k v tl).canonEntriesList =
      (JsonObj.cons k v tl).canonEntries from
      ofEntries_canonEntriesList (JsonObj.cons k v tl) hw']
    rfl
termination_by v _ _ _ _ _ => sizeOf v

/-- Reading the dumped items of a nonempty array back. -/
theorem parse_dump_items :
    ∀ (v : Json) (tl : JsonArr) (fuel : Nat) (rest : List Char),
      (JsonArr.cons v tl).itemsFuel ≤ fuel →
      (JsonArr.cons v tl).wireOkItems = true →
      parseArrItemsF fuel ((JsonArr.cons v tl).dumpItems ++ ']' :: rest) =
        .ok ((JsonArr.cons v tl).canonItems, rest)
  | v, tl, fuel, rest, hf, hw => by
    obtain ⟨f, rfl⟩ : ∃ f, fuel = f + 1 :=
      ⟨fuel - 1, by simp [JsonArr.itemsFuel] at hf; omega⟩
    have hf' : v.pfuel + tl.itemsFuel + 1 ≤ f + 1 := hf
    simp only [JsonArr.wireOkItems, Bool.and_eq_true] at hw
    obtain ⟨hv, htl⟩ := hw
    cases tl with
    | nil =>
      have hdump : (JsonArr.cons v .nil).dumpItems ++ ']' :: rest =
          v.dumpChars ++ ']' :: rest := by
        simp [JsonArr.dumpItems]
      rw [hdump]
      simp only [parseArrItemsF]
      rw [parse_dump v f (']' :: rest) (by omega) hv (by with_unfolding_all rfl)]
      simp only [Bind.bind, Except.bind]
      rw [skipWs_cons (by decide)]
      rfl
    | cons w tl2 =>
      have hf2 : (JsonArr.cons w tl2).itemsFuel ≤ f := by
        have h2 : (JsonArr.cons v (JsonArr.cons w tl2)).itemsFuel =
            v.pfuel + (JsonArr.cons w tl2).itemsFuel + 1 := rfl
        omega
      have hdump : (JsonArr.cons v (.cons w tl2)).dumpItems ++ ']' :: rest =
          v.dumpChars ++
            ',' :: ((JsonArr.cons w tl2).dumpItems ++ ']' :: rest) := by
        simp [JsonArr.dumpItems]
      rw [hdump]
      simp only [parseArrItemsF]
      rw [parse_dump v f
        (',' :: ((JsonArr.cons w tl2).dumpItems ++ ']' :: rest))
        (by omega) hv (by with_unfolding_all rfl)]
      simp only [Bind.bind, Except.bind]
      rw [skipWs_cons (by decide)]
      have hrec := parse_dump_items w tl2 f rest hf2 htl
      change (do
        let (tl', r3) ← parseArrItemsF f
          ((JsonArr.cons w tl2).dumpItems ++ ']' :: rest)
        Except.ok (JsonArr.cons v.canon tl', r3)) =
        Except.ok ((JsonArr.cons v (JsonArr.cons w tl2)).canonItems, rest)
      rw [hrec]
      simp [Bind.bind, Except.bind, JsonArr.canonItems]
termination_by v tl _ _ _ _ => sizeOf v + sizeOf tl

/-- Reading the dumped entries of a nonempty object back: the textual
entry list with parsed-normal values. -/
theorem parse_dump_entries :
    ∀ (k : String) (v : Json) (tl : JsonObj) (fuel : Nat)
      (rest : List Char),
      (JsonObj.cons k v tl).entriesFuel ≤ fuel →
      (JsonObj.cons k v tl).wireOkEntries = true →
      parseObjEntriesF fuel
          ((JsonObj.cons k v tl).dumpEntries ++ '\x7d' :: rest) =
        .ok ((JsonObj.cons k v tl).canonEntriesList, rest)
  | k, v, tl, fuel, rest, hf, hw => by
    obtain ⟨f, rfl⟩ : ∃ f, fuel = f + 1 :=
      ⟨fuel - 1, by simp [JsonObj.entriesFuel] at hf; omega⟩
    have hf' : v.pfuel + tl.entriesFuel + 1 ≤ f + 1 := hf
    simp only [JsonObj.wireOkEntries, Bool.and_eq_true] at hw
    obtain ⟨⟨hv, htl⟩, hhd⟩ := hw
    cases tl with
    | nil =>
      have hdump : (JsonObj.cons k v .nil).dumpEntries ++ '\x7d' :: rest =
          '"' :: (escapeString k.data ++
            '"' :: (':' :: (v.dumpChars ++ '\x7d' :: rest))) := by
        simp [JsonObj.dumpEntries]
      rw [hdump, parseObjEntriesF_quote f _,
        parseStringBody_escape k.data
          (':' :: (v.dumpChars ++ '\x7d' :: rest))]
      simp only [Bind.bind, Except.bind]
      change (do
        let (v', r3) ← parseValueF f (v.dumpChars ++ '\x7d' :: rest)
        (match skipWs r3 with
        | ',' :: r4 => do
          let (es, r5) ← parseObjEntriesF f r4
          Except.ok (((⟨k.data⟩ : String), v') :: es, r5)
        | '\x7d' :: r4 => Except.ok ([((⟨k.data⟩ : String), v')], r4)
        | _ =>
          Except.error "expected , or closing brace after object element"))
        = Except.ok ((JsonObj.cons k v .nil).canonEntriesList, rest)
      rw [parse_dump v f ('\x7d' :: rest) (by omega) hv
        (by with_unfolding_all rfl)]
      simp only [Bind.bind, Except.bind]
      rw [skipWs_cons (by decide)]
      rfl
    | cons k2 w tl2 =>
      have hf2 : (JsonObj.cons k2 w tl2).entriesFuel ≤ f := by
        have h2 : (JsonObj.cons k v (JsonObj.cons k2 w tl2)).entriesFuel =
            v.pfuel + (JsonObj.cons k2 w tl2).entriesFuel + 1 := rfl
        omega
      have hdump :
          (JsonObj.cons k v (.cons k2 w tl2)).dumpEntries ++ '\x7d' :: rest =
          '"' :: (escapeString k.data ++ '"' :: (':' :: (v.dumpChars ++
            ',' :: ((JsonObj.cons k2 w tl2).dumpEntries ++
              '\x7d' :: rest)))) := by
        simp [JsonObj.dumpEntries]
      rw [hdump, parseObjEntriesF_quote f _,
        parseStringBody_escape k.data (':' :: (v.dumpChars ++
          ',' :: ((JsonObj.cons k2 w tl2).dumpEntries ++ '\x7d' :: rest)))]
      simp only [Bind.bind, Except.bind]
      change (do
        let (v', r3) ← parseValueF f (v.dumpChars ++
          ',' :: ((JsonObj.cons k2 w tl2).dumpEntries ++ '\x7d' :: rest))
        (match skipWs r3 with
        | ',' :: r4 => do
          let (es, r5) ← parseObjEntriesF f r4
          Except.ok (((⟨k.data⟩ : String), v') :: es, r5)
        | '\x7d' :: r4 => Except.ok ([((⟨k.data⟩ : String), v')], r4)
        | _ =>
          Except.error "expected , or closing brace after object element"))
        = Except.ok
          ((JsonObj.cons k v (JsonObj.cons k2 w tl2)).canonEntriesList, rest)
      rw [parse_dump v f (',' :: ((JsonObj.cons k2 w tl2).dumpEntries ++
        '\x7d' :: rest)) (by omega) hv (by with_unfolding_all rfl)]
      simp only [Bind.bind, Except.bind]
      rw [skipWs_cons (by decide)]
      have hrec := parse_dump_entries k2 w tl2 f rest hf2 htl
      change (do
        let (es, r5) ← parseObjEntriesF f
          ((JsonObj.cons k2 w tl2).dumpEntries ++ '\x7d' :: rest)
        Except.ok (((⟨k.data⟩ : String), v.canon) :: es, r5)) =
        Except.ok
          ((JsonObj.cons k v (JsonObj.cons k2 w tl2)).canonEntriesList, rest)
      rw [hrec]
      simp [Bind.bind, Except.bind, JsonObj.canonEntriesList]
termination_by _ v tl _ _ _ _ => sizeOf v + sizeOf tl
end

/-- `printNat` never prints the empty token. -/
theorem printNat_len (n : Nat) : 1 ≤ (printNat n).length := by
  obtain ⟨d, tl, _, _, hform, _, _⟩ := printNat_form n
  simp [hform]

/-- `printInt` never prints the empty token. -/
theorem printInt_len (i : Int) : 1 ≤ (printInt i).length := by
  by_cases h : i < 0 <;> simp [printInt, h, printNat_len]

mutual
/-- A value's parse fuel is bounded by the length of its own dump. -/
theorem pfuel_le_dumpLen : ∀ v : Json, v.pfuel ≤ v.dumpChars.length
  | .null => by show 1 ≤ 4; omega
  | .boolean true => by show 1 ≤ 4; omega
  | .boolean false => by show 1 ≤ 5; omega
  | .intNum i => by
    show 1 ≤ (printInt i).length
    exact printInt_len i
  | .uintNum n => by
    show 1 ≤ (printNat n).length
    exact printNat_len n
  | .floatNum f => by
    show 1 ≤ (printFloatLit f).length
    have := printNat_len f.ipart
    by_cases h1 : f.neg <;> by_cases h2 : f.ex = 0 <;>
      simp [printFloatLit, h1, h2] <;> omega
  | .str s => by
    show 1 ≤ ('"' :: (escapeString s.data ++ ['"'])).length
    simp
  | .arr a => by
    have := itemsFuel_le_dumpLen a
    show a.itemsFuel + 1 ≤ ('[' :: (a.dumpItems ++ [']'])).length
    simp only [List.length_cons, List.length_append, List.length_singleton]
    omega
  | .obj o => by
    have := entriesFuel_le_dumpLen o
    show o.entriesFuel + 1 ≤ ('\x7b' :: (o.dumpEntries ++ ['\x7d'])).length
    simp only [List.length_cons, List.length_append, List.length_singleton]
    omega
termination_by v => sizeOf v

/-- Item fuel is bounded by the dumped items' length plus one. -/
theorem itemsFuel_le_dumpLen :
    ∀ a : JsonArr, a.itemsFuel ≤ a.dumpItems.length + 1
  | .nil => by show 0 ≤ ([] : List Char).length + 1; omega
  | .cons v .nil => by
    have := pfuel_le_dumpLen v
    show v.pfuel + JsonArr.nil.itemsFuel + 1 ≤ v.dumpChars.length + 1
    simp only [JsonArr.itemsFuel]
    omega
  | .cons v (.cons w tl) => by
    have h1 := pfuel_le_dumpLen v
    have h2 := itemsFuel_le_dumpLen (.cons w tl)
    show v.pfuel + (JsonArr.cons w tl).itemsFuel + 1 ≤
      (v.dumpChars ++ ',' :: (JsonArr.cons w tl).dumpItems).length + 1
    simp only [List.length_append, List.length_cons]
    omega
termination_by a => sizeOf a

/-- Entry fuel is bounded by the dumped entries' length plus one. -/
theorem entriesFuel_le_dumpLen :
    ∀ o : JsonObj, o.entriesFuel ≤ o.dumpEntries.length + 1
  | .nil => by show 0 ≤ ([] : List Char).length + 1; omega
  | .cons k v .nil => by
    have := pfuel_le_dumpLen v
    show v.pfuel + JsonObj.nil.entriesFuel + 1 ≤
      ('"' :: (escapeString k.data ++ '"' :: ':' :: v.dumpChars)).length + 1
    simp only [JsonObj.entriesFuel, List.length_cons, List.length_append]
    omega
  | .cons k v (.cons k' w tl) => by
    have h1 := pfuel_le_dumpLen v
    have h2 := entriesFuel_le_dumpLen (.cons k' w tl)
    show v.pfuel + (JsonObj.cons k' w tl).entriesFuel + 1 ≤
      (('"' :: (escapeString k.data ++ '"' :: ':' :: v.dumpChars)) ++
        ',' :: (JsonObj.cons k' w tl).dumpEntries).length + 1
    simp only [List.length_append, List.length_cons]
    omega
termination_by o => sizeOf o
end

mutual
/-- The parser's normal form of a wire-representable value compares equal
to the original under `nlohmann::json::operator==`. -/
theorem jsonEq_canon : ∀ v : Json, v.wireOk = true → v.canon.jsonEq v = true
  | .null, _ => by with_unfolding_all rfl
  | .boolean b, _ => by cases b <;> with_unfolding_all rfl
  | .intNum i, hw => by
    have hlt : i < 2 ^ 63 := by
      simp only [Json.wireOk, Bool.and_eq_true, decide_eq_true_eq] at hw
      exact hw.2
    by_cases h0 : 0 ≤ i
    · have hc : Json.canon (.intNum i) = .uintNum i.toNat := by
        simp [Json.canon, h0]
      rw [hc]
      show (castU2I i.toNat == i) = true
      have h1 : i.toNat < 2 ^ 63 := by omega
      simp only [castU2I, if_pos h1, beq_iff_eq]
      omega
    · have hc : Json.canon (.intNum i) = .intNum i := by
        simp [Json.canon, h0]
      rw [hc]
      show (i == i) = true
      simp
  | .uintNum n, _ => by
    show (n == n) = true
    simp
  | .floatNum f, hw => absurd hw (by simp [Json.wireOk])
  | .str s, _ => by
    show (s == s) = true
    simp
  | .arr a, hw => by
    show a.canonItems.eqItems a = true
    exact eqItems_canon a hw
  | .obj o, hw => by
    show o.canonEntries.eqEntries o = true
    exact eqEntries_canon o hw
termination_by v _ => sizeOf v

/-- `jsonEq_canon` itemwise. -/
theorem eqItems_canon :
    ∀ a : JsonArr, a.wireOkItems = true → a.canonItems.eqItems a = true
  | .nil, _ => by with_unfolding_all rfl
  | .cons v tl, hw => by
    simp only [JsonArr.wireOkItems, Bool.and_eq_true] at hw
    show (v.canon.jsonEq v && tl.canonItems.eqItems tl) = true
    rw [jsonEq_canon v hw.1, eqItems_canon tl hw.2]
    simp
termination_by a _ => sizeOf a

/-- `jsonEq_canon` entrywise. -/
theorem eqEntries_canon :
    ∀ o : JsonObj, o.wireOkEntries = true → o.canonEntries.eqEntries o = true
  | .nil, _ => by with_unfolding_all rfl
  | .cons k v tl, hw => by
    simp only [JsonObj.wireOkEntries, Bool.and_eq_true] at hw
    show ((k == k) && v.canon.jsonEq v && tl.canonEntries.eqEntries tl) = true
    rw [jsonEq_canon v hw.1.1, eqEntries_canon tl hw.1.2]
    simp
termination_by o _ => sizeOf o
end

/-- C8: every wire-representable success envelope `E` — a JSON object
holding `_success:true` plus arbitrary result fields, with the `std::map`
sorted-key invariant, numbers within their 64-bit storage, and no float
members (IEEE doubles are outside the embedding) — survives the wire:
`json::parse` applied to `E.dump()` succeeds and yields the parser's
normal form `E.canon` (non-negative integers come back as the unsigned
kind), and that value compares equal to `E` field-for-field under
`nlohmann::json::operator==`. -/
theorem envelope_roundtrip (E : Json)
    (hobj : E.isObject = true) (hw : E.wireOk = true)
    (hs : E.atKey "_success" = some (.boolean true)) :
    Json.parse E.dump = .ok E.canon ∧ E.canon.jsonEq E = true := by
  refine ⟨?_, jsonEq_canon E hw⟩
  have hpd := parse_dump E (E.dumpChars.length + 1) []
    (by have := pfuel_le_dumpLen E; omega) hw (by rfl)
  rw [List.append_nil] at hpd
  unfold Json.parse
  rw [show E.dump.data = E.dumpChars from rfl]
  rw [hpd]
  rfl

/-- C8 witness: the concrete success envelope
`\x7b"_success":true,"v":7\x7d` satisfies the hypotheses and
round-trips. -/
theorem envelope_roundtrip_witness :
    (Json.obj (.cons "_success" (.boolean true)
      (.cons "v" (.uintNum 7) .nil))).isObject = true ∧
    (Json.obj (.cons "_success" (.boolean true)
      (.cons "v" (.uintNum 7) .nil))).wireOk = true ∧
    (Json.obj (.cons "_success" (.boolean true)
      (.cons "v" (.uintNum 7) .nil))).atKey "_success"
      = some (.boolean true) ∧
    (Json.parse (Json.obj (.cons "_success" (.boolean true)
        (.cons "v" (.uintNum 7) .nil))).dump
      = .ok (Json.obj (.cons "_success" (.boolean true)
        (.cons "v" (.uintNum 7) .nil))).canon ∧
      (Json.obj (.cons "_success" (.boolean true)
        (.cons "v" (.uintNum 7) .nil))).canon.jsonEq
        (Json.obj (.cons "_success" (.boolean true)
          (.cons "v" (.uintNum 7) .nil))) = true) :=
  ⟨by with_unfolding_all rfl, by with_unfolding_all rfl,
   by with_unfolding_all rfl,
   envelope_roundtrip _ (by with_unfolding_all rfl)
     (by with_unfolding_all rfl) (by with_unfolding_all rfl)⟩

end Socks
